import Mathlib

set_option maxRecDepth 100000

/-!
# Verification model of tilelive-cache (`src/index.js`)

A shallow embedding of the caching/encoding engine of `tilelive-cache`:

* the codec (`encode`, `decode`, `errcode`, `src/index.js` lines 122-189),
* the expiration/TTL write logic (`setEx`, lines 79-108),
* the freshness test (`isFresh`, lines 110-115),
* the orchestrator control flow (`cachingGet`, lines 32-77), modelled as a
  function from an environment (store response, underlying fetch result,
  clock) to the ordered list of externally visible events.

Bytes and JS strings are both modelled as `List Char` (one `Char` per byte;
the code only moves ASCII header text and opaque payload bytes through
string/buffer conversions, so the identification is faithful for the flows
modelled here).

Host builtins used by the code (`JSON.stringify` / `JSON.parse`, `Date`,
`Buffer`) are not part of the repository and are modelled explicitly:

* JSON is modelled by the inductive `Json` below with a serializer `strJ`
  (field order preserved, no added whitespace, `"` and `\` escaped — the
  shape `JSON.stringify` produces for the values the code handles; numbers
  are modelled as integers, `\uXXXX` escapes are not modelled) and a
  recursive-descent parser `Json.parse` proved to invert `strJ`.
* `Date` strings are represented by the decimal string of their millisecond
  value: `toUTCString` truncates to whole seconds (as the RFC-1123 text
  format does) and `parseDateChars` reads the value back; `NaN` is `none`.
* `Buffer.concat` with a non-Buffer element (which the code reaches for a
  falsy payload) is a `TypeError`, modelled by `EncErr.typeErr`.
-/

/-- JSON values as the code moves them: the metadata (headers) object, the
structured payloads guarded by the `x-tl-json` flag, and everything
`JSON.parse` can return. Object fields are an ordered association list
(JS objects preserve insertion order for the non-numeric keys used here). -/
inductive Json where
  | null
  | bool (b : Bool)
  | num (n : Int)
  | str (s : List Char)
  | arr (elems : List Json)
  | obj (fields : List (List Char × Json))
  deriving Repr

mutual

/-- Structural boolean equality on `Json` (decidable equality is derived
from it below; `deriving DecidableEq` does not handle this nested type). -/
def Json.beq : Json → Json → Bool
  | .null, .null => true
  | .bool a, .bool b => a == b
  | .num a, .num b => a == b
  | .str a, .str b => a == b
  | .arr a, .arr b => beqElems a b
  | .obj a, .obj b => beqFields a b
  | _, _ => false

/-- Pointwise `Json.beq` on element lists. -/
def beqElems : List Json → List Json → Bool
  | [], [] => true
  | a :: as, b :: bs => Json.beq a b && beqElems as bs
  | _, _ => false

/-- Pointwise `Json.beq` on field lists. -/
def beqFields : List (List Char × Json) → List (List Char × Json) → Bool
  | [], [] => true
  | (k1, v1) :: as, (k2, v2) :: bs => k1 == k2 && Json.beq v1 v2 && beqFields as bs
  | _, _ => false

end

mutual

theorem Json.beq_iff : ∀ a b : Json, Json.beq a b = true ↔ a = b
  | .null, b => by cases b <;> simp [Json.beq]
  | .bool x, b => by cases b <;> simp [Json.beq]
  | .num x, b => by cases b <;> simp [Json.beq]
  | .str x, b => by cases b <;> simp [Json.beq]
  | .arr xs, b => by
      cases b <;> simp [Json.beq]
      exact beqElems_iff xs _
  | .obj fs, b => by
      cases b <;> simp [Json.beq]
      exact beqFields_iff fs _

theorem beqElems_iff : ∀ a b : List Json, beqElems a b = true ↔ a = b
  | [], b => by cases b <;> simp [beqElems]
  | x :: xs, b => by
      cases b with
      | nil => simp [beqElems]
      | cons y ys =>
        simp only [beqElems, Bool.and_eq_true, List.cons.injEq]
        rw [Json.beq_iff, beqElems_iff]

theorem beqFields_iff : ∀ a b : List (List Char × Json), beqFields a b = true ↔ a = b
  | [], b => by cases b <;> simp [beqFields]
  | (k, v) :: xs, b => by
      cases b with
      | nil => simp [beqFields]
      | cons y ys =>
        obtain ⟨k2, v2⟩ := y
        have h1 := Json.beq_iff v v2
        have h2 := beqFields_iff xs ys
        simp only [beqFields, Bool.and_eq_true, List.cons.injEq, Prod.mk.injEq, beq_iff_eq,
          h1, h2]

end

instance Json.decEq : DecidableEq Json := fun a b =>
  decidable_of_iff (Json.beq a b = true) (Json.beq_iff a b)

/-! ## Decimal digit strings (used by number serialization and the Date model) -/

/-- Character for a single decimal digit. -/
def digitChar (d : Nat) : Char :=
  if d = 0 then '0' else if d = 1 then '1' else if d = 2 then '2' else if d = 3 then '3'
  else if d = 4 then '4' else if d = 5 then '5' else if d = 6 then '6' else if d = 7 then '7'
  else if d = 8 then '8' else '9'

theorem digitChar_toNat {d : Nat} (h : d < 10) : (digitChar d).toNat = 48 + d := by
  interval_cases d <;> decide

/-- Fuel-bounded digit expansion (structural recursion, so that concrete
values evaluate inside the kernel). -/
def natDigitsAux : Nat → Nat → List Char
  | 0, _ => []
  | f + 1, n =>
    if n < 10 then [digitChar n]
    else natDigitsAux f (n / 10) ++ [digitChar (n % 10)]

theorem natDigitsAux_eq (f1 f2 n : Nat) (h1 : n < f1) (h2 : n < f2) :
    natDigitsAux f1 n = natDigitsAux f2 n := by
  induction n using Nat.strong_induction_on generalizing f1 f2 with
  | _ n ih =>
    cases f1 with
    | zero => omega
    | succ g1 =>
      cases f2 with
      | zero => omega
      | succ g2 =>
        by_cases hn : n < 10
        · simp [natDigitsAux, hn]
        · simp only [natDigitsAux, hn, if_false]
          rw [ih (n / 10) (Nat.div_lt_self (by omega) (by omega)) g1 g2 (by omega) (by omega)]

/-- Decimal digit characters of a natural number, most significant first. -/
def natDigits (n : Nat) : List Char := natDigitsAux (n + 1) n

/-- The defining recurrence of `natDigits`. -/
theorem natDigits_step (n : Nat) :
    natDigits n = if n < 10 then [digitChar n] else natDigits (n / 10) ++ [digitChar (n % 10)] := by
  show natDigitsAux (n + 1) n = _
  by_cases hn : n < 10
  · simp [natDigitsAux, hn]
  · simp only [natDigitsAux, hn, if_false]
    rw [natDigitsAux_eq n (n / 10 + 1) (n / 10) (by omega) (by omega)]
    rfl

/-- Decimal serialization of an integer (the shape `JSON.stringify` and
`String(n)` produce for integer values). -/
def intToChars (n : Int) : List Char :=
  if n < 0 then '-' :: natDigits (-n).toNat else natDigits n.toNat

/-- Numeric value of a digit string (fold as the usual base-10 read). -/
def digitsToNat (l : List Char) : Nat :=
  l.foldl (fun a c => a * 10 + (c.toNat - 48)) 0

theorem natDigits_ne_nil (n : Nat) : natDigits n ≠ [] := by
  rw [natDigits_step]
  split <;> simp

theorem natDigits_all_digit (n : Nat) : ∀ c ∈ natDigits n, 48 ≤ c.toNat ∧ c.toNat ≤ 57 := by
  induction n using Nat.strong_induction_on with
  | _ n ih =>
    rw [natDigits_step]
    split
    · next h =>
      intro c hc
      simp only [List.mem_singleton] at hc
      subst hc
      rw [digitChar_toNat h]
      omega
    · next h =>
      intro c hc
      rw [List.mem_append] at hc
      rcases hc with hc | hc
      · exact ih (n / 10) (Nat.div_lt_self (by omega) (by omega)) c hc
      · simp only [List.mem_singleton] at hc
        subst hc
        rw [digitChar_toNat (Nat.mod_lt _ (by omega))]
        omega

theorem digitsToNat_append (l : List Char) (c : Char) :
    digitsToNat (l ++ [c]) = digitsToNat l * 10 + (c.toNat - 48) := by
  simp [digitsToNat, List.foldl_append]

theorem digitsToNat_natDigits (n : Nat) : digitsToNat (natDigits n) = n := by
  induction n using Nat.strong_induction_on with
  | _ n ih =>
    rw [natDigits_step]
    split
    · next h =>
      simp only [digitsToNat, List.foldl_cons, List.foldl_nil]
      rw [digitChar_toNat h]
      omega
    · next h =>
      rw [digitsToNat_append, ih (n / 10) (Nat.div_lt_self (by omega) (by omega))]
      rw [digitChar_toNat (Nat.mod_lt _ (by omega))]
      omega

/-! ## JSON serialization (model of `JSON.stringify` for the values in play) -/

/-- Escape for JSON string content: `"` and `\` get a backslash, all other
characters pass through (the header keys/values the code produces contain no
control characters, so `\uXXXX` escapes never arise). -/
def escapeChar (c : Char) : List Char :=
  if c = '"' ∨ c = '\\' then ['\\', c] else [c]

/-- Escape every character of a JSON string body. -/
def escapeStr : List Char → List Char
  | [] => []
  | c :: s => escapeChar c ++ escapeStr s

mutual

/-- Serialized form of a JSON value: insertion order preserved, no
whitespace — the shape `JSON.stringify` emits. -/
def strJ : Json → List Char
  | .null => 'n' :: ['u', 'l', 'l']
  | .bool b => if b then 't' :: ['r', 'u', 'e'] else 'f' :: ['a', 'l', 's', 'e']
  | .num n => intToChars n
  | .str s => '"' :: (escapeStr s ++ ['"'])
  | .arr xs => '[' :: strElems xs
  | .obj fs => '{' :: strFields fs

/-- Serialized array elements including the closing bracket. -/
def strElems : List Json → List Char
  | [] => [']']
  | [x] => strJ x ++ [']']
  | x :: y :: xs => strJ x ++ ',' :: strElems (y :: xs)

/-- Serialized object fields including the closing brace. -/
def strFields : List (List Char × Json) → List Char
  | [] => ['}']
  | [(k, v)] => '"' :: (escapeStr k ++ '"' :: ':' :: (strJ v ++ ['}']))
  | (k, v) :: g :: fs =>
      '"' :: (escapeStr k ++ '"' :: ':' :: (strJ v ++ ',' :: strFields (g :: fs)))

end

/-! ## JSON parsing (model of `JSON.parse` on the texts in play) -/

/-- Digit test used by the number grammar. -/
def isDigitCh (c : Char) : Bool := 48 ≤ c.toNat && c.toNat ≤ 57

/-- Match an exact literal, returning the remainder. -/
def expectLit : List Char → List Char → Option (List Char)
  | [], l => some l
  | _ :: _, [] => none
  | c :: cs, x :: xs => if x = c then expectLit cs xs else none

/-- Parse a JSON string body after the opening quote, up to and including the
closing quote; a backslash makes the following character literal. -/
def parseString : List Char → Option (List Char × List Char)
  | [] => none
  | c :: rest =>
    if c = '"' then some ([], rest)
    else if c = '\\' then
      match rest with
      | [] => none
      | c2 :: rest2 => (parseString rest2).map (fun p => (c2 :: p.1, p.2))
    else (parseString rest).map (fun p => (c :: p.1, p.2))

/-- Longest leading run of digits, as a number, with the remainder. -/
def parseNumAux (l : List Char) : Option (Nat × List Char) :=
  let ds := l.takeWhile isDigitCh
  if ds = [] then none else some (digitsToNat ds, l.dropWhile isDigitCh)

/-- Parse an integer numeral with optional leading minus. -/
def parseNumber : List Char → Option (Int × List Char)
  | [] => none
  | c :: rest =>
    if c = '-' then (parseNumAux rest).map (fun p => (-(p.1 : Int), p.2))
    else (parseNumAux (c :: rest)).map (fun p => ((p.1 : Int), p.2))

mutual

/-- Parse one JSON value (fuel-bounded recursive descent). -/
def parseVal : Nat → List Char → Option (Json × List Char)
  | 0, _ => none
  | f + 1, l =>
    match l with
    | [] => none
    | c :: rest =>
      if c = '"' then (parseString rest).map (fun p => (Json.str p.1, p.2))
      else if c = '[' then (parseElems f rest).map (fun p => (Json.arr p.1, p.2))
      else if c = '{' then (parseFields f rest).map (fun p => (Json.obj p.1, p.2))
      else if c = 'n' then (expectLit ['u', 'l', 'l'] rest).map (fun r => (Json.null, r))
      else if c = 't' then (expectLit ['r', 'u', 'e'] rest).map (fun r => (Json.bool true, r))
      else if c = 'f' then (expectLit ['a', 'l', 's', 'e'] rest).map (fun r => (Json.bool false, r))
      else (parseNumber (c :: rest)).map (fun p => (Json.num p.1, p.2))

/-- Parse array elements after the opening bracket, through the closing one. -/
def parseElems : Nat → List Char → Option (List Json × List Char)
  | 0, _ => none
  | f + 1, l =>
    match l with
    | [] => none
    | c :: rest =>
      if c = ']' then some ([], rest)
      else
        match parseVal f (c :: rest) with
        | none => none
        | some (v, r1) =>
          match r1 with
          | [] => none
          | c2 :: r2 =>
            if c2 = ',' then
              match parseElems f r2 with
              | none => none
              | some (vs, r3) => some (v :: vs, r3)
            else if c2 = ']' then some ([v], r2)
            else none

/-- Parse object fields after the opening brace, through the closing one. -/
def parseFields : Nat → List Char → Option (List (List Char × Json) × List Char)
  | 0, _ => none
  | f + 1, l =>
    match l with
    | [] => none
    | c :: rest =>
      if c = '}' then some ([], rest)
      else if c = '"' then
        match parseString rest with
        | none => none
        | some (k, r1) =>
          match r1 with
          | [] => none
          | c2 :: r2 =>
            if c2 = ':' then
              match parseVal f r2 with
              | none => none
              | some (v, r3) =>
                match r3 with
                | [] => none
                | c3 :: r4 =>
                  if c3 = ',' then
                    match parseFields f r4 with
                    | none => none
                    | some (fs, r5) => some ((k, v) :: fs, r5)
                  else if c3 = '}' then some ([(k, v)], r4)
                  else none
            else none
      else none

end

/-- Model of `JSON.parse`: the whole input must be a single serialized value
(the texts the code parses carry no surrounding whitespace once trimmed).
Fuel `length + 1` is enough for any value the serializer produces. -/
def Json.parse (l : List Char) : Option Json :=
  match parseVal (l.length + 1) l with
  | some (j, []) => some j
  | _ => none

/-! ## The parser inverts the serializer -/

mutual

/-- Fuel measure of a JSON value for the parser. -/
def sizeJ : Json → Nat
  | .arr xs => 1 + sizeL xs
  | .obj fs => 1 + sizeF fs
  | _ => 1

/-- Fuel measure of array elements. -/
def sizeL : List Json → Nat
  | [] => 1
  | x :: xs => sizeJ x + sizeL xs

/-- Fuel measure of object fields. -/
def sizeF : List (List Char × Json) → Nat
  | [] => 1
  | (_, v) :: fs => sizeJ v + sizeF fs

end

theorem sizeJ_pos (j : Json) : 1 ≤ sizeJ j := by
  cases j <;> simp [sizeJ]

theorem sizeL_pos (xs : List Json) : 1 ≤ sizeL xs := by
  cases xs with
  | nil => simp [sizeL]
  | cons x xs => have := sizeJ_pos x; simp [sizeL]; omega

theorem sizeF_pos (fs : List (List Char × Json)) : 1 ≤ sizeF fs := by
  cases fs with
  | nil => simp [sizeF]
  | cons g fs => obtain ⟨k, v⟩ := g; have := sizeJ_pos v; simp [sizeF]; omega

/-- Serialized values start with a character that closes no bracket and
separates no list: the parser can always distinguish "next element" from
"end of list". -/
theorem strJ_cons (j : Json) :
    ∃ c cs, strJ j = c :: cs ∧ c ≠ ']' ∧ c ≠ '}' ∧ c ≠ ',' := by
  cases j with
  | null => exact ⟨'n', _, rfl, by decide, by decide, by decide⟩
  | bool b =>
      cases b
      · exact ⟨'f', _, rfl, by decide, by decide, by decide⟩
      · exact ⟨'t', _, rfl, by decide, by decide, by decide⟩
  | num n =>
      by_cases h : n < 0
      · refine ⟨'-', natDigits (-n).toNat, by simp [strJ, intToChars, h], by decide, by decide,
          by decide⟩
      · obtain ⟨c, cs, hc⟩ := List.exists_cons_of_ne_nil (natDigits_ne_nil n.toNat)
        have hd := natDigits_all_digit n.toNat c (by rw [hc]; exact List.mem_cons_self _ _)
        refine ⟨c, cs, by simp [strJ, intToChars, h, hc], ?_, ?_, ?_⟩ <;>
          (intro he; subst he; revert hd; decide)
  | str s => exact ⟨'"', _, rfl, by decide, by decide, by decide⟩
  | arr xs => exact ⟨'[', _, rfl, by decide, by decide, by decide⟩
  | obj fs => exact ⟨'{', _, rfl, by decide, by decide, by decide⟩

/-- A predicate holding on every element takes the whole left part of an
append, stopping exactly at a right part whose head refutes it. -/
theorem takeWhile_all_append {p : Char → Bool} :
    ∀ (l rest : List Char), (∀ c ∈ l, p c = true) →
      (rest = [] ∨ ∃ c cs, rest = c :: cs ∧ p c = false) →
      (l ++ rest).takeWhile p = l ∧ (l ++ rest).dropWhile p = rest := by
  intro l
  induction l with
  | nil =>
    intro rest _ hr
    rcases hr with rfl | ⟨c, cs, rfl, hc⟩
    · simp
    · simp [List.takeWhile, List.dropWhile, hc]
  | cons x xs ih =>
    intro rest hall hr
    have hx := hall x (List.mem_cons_self _ _)
    have := ih rest (fun c hc => hall c (List.mem_cons_of_mem _ hc)) hr
    simp [List.takeWhile, List.dropWhile, hx, this.1, this.2]

/-- True when the input cannot continue a digit run. -/
def headNotDigit : List Char → Bool
  | [] => true
  | c :: _ => !(isDigitCh c)

theorem headNotDigit_cons (c : Char) (l : List Char) :
    headNotDigit (c :: l) = !(isDigitCh c) := rfl

theorem parseNumAux_natDigits (m : Nat) (rest : List Char) (hr : headNotDigit rest = true) :
    parseNumAux (natDigits m ++ rest) = some (m, rest) := by
  have hall : ∀ c ∈ natDigits m, isDigitCh c = true := by
    intro c hc
    have := natDigits_all_digit m c hc
    simp [isDigitCh]
    omega
  have hrest : rest = [] ∨ ∃ c cs, rest = c :: cs ∧ isDigitCh c = false := by
    cases rest with
    | nil => exact Or.inl rfl
    | cons c cs =>
      right
      refine ⟨c, cs, rfl, ?_⟩
      rw [headNotDigit_cons] at hr
      simpa using hr
  obtain ⟨ht, hd⟩ := takeWhile_all_append _ _ hall hrest
  simp [parseNumAux, ht, hd, natDigits_ne_nil m, digitsToNat_natDigits]

theorem parseNumber_intToChars (n : Int) (rest : List Char) (hr : headNotDigit rest = true) :
    parseNumber (intToChars n ++ rest) = some (n, rest) := by
  by_cases hneg : n < 0
  · have h0 : intToChars n = '-' :: natDigits (-n).toNat := by simp [intToChars, hneg]
    rw [h0, List.cons_append, parseNumber, if_pos rfl, parseNumAux_natDigits _ _ hr]
    have : ((-n).toNat : Int) = -n := Int.toNat_of_nonneg (by omega)
    simp
    omega
  · have h0 : intToChars n = natDigits n.toNat := by simp [intToChars, hneg]
    obtain ⟨c, cs, hc⟩ := List.exists_cons_of_ne_nil (natDigits_ne_nil n.toNat)
    have hd := natDigits_all_digit n.toNat c (by rw [hc]; exact List.mem_cons_self _ _)
    have hne : c ≠ '-' := by intro he; subst he; revert hd; decide
    rw [h0, hc, List.cons_append, parseNumber, if_neg hne, ← List.cons_append, ← hc,
      parseNumAux_natDigits _ _ hr]
    simp
    omega

theorem parseString_cons (c : Char) (l : List Char) :
    parseString (c :: l) =
      if c = '"' then some ([], l)
      else if c = '\\' then
        match l with
        | [] => none
        | c2 :: rest2 => (parseString rest2).map (fun p => (c2 :: p.1, p.2))
      else (parseString l).map (fun p => (c :: p.1, p.2)) := by
  rw [parseString.eq_def]

theorem parseString_escape : ∀ (s rest : List Char),
    parseString (escapeStr s ++ '"' :: rest) = some (s, rest) := by
  intro s
  induction s with
  | nil =>
    intro rest
    rw [escapeStr, List.nil_append, parseString_cons, if_pos rfl]
  | cons c s ih =>
    intro rest
    by_cases hc : c = '"' ∨ c = '\\'
    · have he : escapeChar c = ['\\', c] := by simp [escapeChar, hc]
      have hq : ('\\' : Char) ≠ '"' := by decide
      simp only [escapeStr, he, List.cons_append, List.append_assoc, List.nil_append]
      rw [parseString_cons, if_neg hq, if_pos rfl]
      simp only [ih]
      rfl
    · push_neg at hc
      have he : escapeChar c = [c] := by simp [escapeChar, hc.1, hc.2]
      simp only [escapeStr, he, List.cons_append, List.append_assoc, List.nil_append]
      rw [parseString_cons, if_neg hc.1, if_neg hc.2, ih]
      rfl

theorem expectLit_append : ∀ (lit rest : List Char), expectLit lit (lit ++ rest) = some rest := by
  intro lit
  induction lit with
  | nil => intro rest; rfl
  | cons c cs ih => intro rest; simp [expectLit, ih]

theorem parseVal_succ (f : Nat) (c : Char) (rest : List Char) :
    parseVal (f + 1) (c :: rest) =
      (if c = '"' then (parseString rest).map (fun p => (Json.str p.1, p.2))
      else if c = '[' then (parseElems f rest).map (fun p => (Json.arr p.1, p.2))
      else if c = '{' then (parseFields f rest).map (fun p => (Json.obj p.1, p.2))
      else if c = 'n' then (expectLit ['u', 'l', 'l'] rest).map (fun r => (Json.null, r))
      else if c = 't' then (expectLit ['r', 'u', 'e'] rest).map (fun r => (Json.bool true, r))
      else if c = 'f' then
        (expectLit ['a', 'l', 's', 'e'] rest).map (fun r => (Json.bool false, r))
      else (parseNumber (c :: rest)).map (fun p => (Json.num p.1, p.2))) := by
  rw [parseVal.eq_def]

theorem parseElems_succ (f : Nat) (c : Char) (rest : List Char) :
    parseElems (f + 1) (c :: rest) =
      (if c = ']' then some ([], rest)
      else
        match parseVal f (c :: rest) with
        | none => none
        | some (v, r1) =>
          match r1 with
          | [] => none
          | c2 :: r2 =>
            if c2 = ',' then
              match parseElems f r2 with
              | none => none
              | some (vs, r3) => some (v :: vs, r3)
            else if c2 = ']' then some ([v], r2)
            else none) := by
  rw [parseElems.eq_def]

theorem parseFields_succ (f : Nat) (c : Char) (rest : List Char) :
    parseFields (f + 1) (c :: rest) =
      (if c = '}' then some ([], rest)
      else if c = '"' then
        match parseString rest with
        | none => none
        | some (k, r1) =>
          match r1 with
          | [] => none
          | c2 :: r2 =>
            if c2 = ':' then
              match parseVal f r2 with
              | none => none
              | some (v, r3) =>
                match r3 with
                | [] => none
                | c3 :: r4 =>
                  if c3 = ',' then
                    match parseFields f r4 with
                    | none => none
                    | some (fs, r5) => some ((k, v) :: fs, r5)
                  else if c3 = '}' then some ([(k, v)], r4)
                  else none
            else none
      else none) := by
  rw [parseFields.eq_def]

/-- Head character of a serialized integer: a minus sign or a digit. -/
theorem intToChars_head (n : Int) :
    ∃ c cs, intToChars n = c :: cs ∧ (c = '-' ∨ (48 ≤ c.toNat ∧ c.toNat ≤ 57)) := by
  by_cases h : n < 0
  · exact ⟨'-', natDigits (-n).toNat, by simp [intToChars, h], Or.inl rfl⟩
  · obtain ⟨c, cs, hc⟩ := List.exists_cons_of_ne_nil (natDigits_ne_nil n.toNat)
    exact ⟨c, cs, by simp [intToChars, h, hc],
      Or.inr (natDigits_all_digit n.toNat c (by rw [hc]; exact List.mem_cons_self _ _))⟩

/-- Number heads are distinct from every other dispatch character. -/
theorem headDispatch {c : Char} (h : c = '-' ∨ (48 ≤ c.toNat ∧ c.toNat ≤ 57)) :
    c ≠ '"' ∧ c ≠ '[' ∧ c ≠ '{' ∧ c ≠ 'n' ∧ c ≠ 't' ∧ c ≠ 'f' := by
  rcases h with rfl | ⟨h1, h2⟩
  · exact ⟨by decide, by decide, by decide, by decide, by decide, by decide⟩
  · refine ⟨?_, ?_, ?_, ?_, ?_, ?_⟩ <;> (intro he; subst he; revert h1 h2; decide)

/-- Joint induction: each parser, given enough fuel, consumes exactly the
serialized text and returns the value, leaving the rest untouched. -/
theorem parse_round : ∀ f : Nat,
    (∀ j rest, sizeJ j ≤ f → headNotDigit rest = true →
        parseVal f (strJ j ++ rest) = some (j, rest)) ∧
    (∀ xs rest, sizeL xs ≤ f → parseElems f (strElems xs ++ rest) = some (xs, rest)) ∧
    (∀ fs rest, sizeF fs ≤ f → parseFields f (strFields fs ++ rest) = some (fs, rest)) := by
  intro f
  induction f with
  | zero =>
    refine ⟨?_, ?_, ?_⟩
    · intro j rest hsz _; have := sizeJ_pos j; omega
    · intro xs rest hsz; have := sizeL_pos xs; omega
    · intro fs rest hsz; have := sizeF_pos fs; omega
  | succ f ih =>
    obtain ⟨ihA, ihB, ihC⟩ := ih
    refine ⟨?_, ?_, ?_⟩
    · intro j rest hsz hr
      cases j with
      | null =>
        simp only [strJ, List.cons_append, List.nil_append]
        rw [parseVal_succ, if_neg (by decide), if_neg (by decide), if_neg (by decide),
          if_pos rfl]
        simp [expectLit]
      | bool b =>
        cases b
        · simp only [strJ, if_neg Bool.false_ne_true, List.cons_append, List.nil_append]
          rw [parseVal_succ, if_neg (by decide), if_neg (by decide), if_neg (by decide),
            if_neg (by decide), if_neg (by decide), if_pos rfl]
          simp [expectLit]
        · simp only [strJ, if_pos trivial, List.cons_append, List.nil_append]
          rw [parseVal_succ, if_neg (by decide), if_neg (by decide), if_neg (by decide),
            if_neg (by decide), if_pos rfl]
          simp [expectLit]
      | num n =>
        obtain ⟨c, cs, hc, hP⟩ := intToChars_head n
        obtain ⟨d1, d2, d3, d4, d5, d6⟩ := headDispatch hP
        simp only [strJ]
        rw [hc, List.cons_append, parseVal_succ, if_neg d1, if_neg d2, if_neg d3, if_neg d4,
          if_neg d5, if_neg d6, ← List.cons_append, ← hc,
          parseNumber_intToChars n rest hr]
        rfl
      | str s =>
        simp only [strJ, List.cons_append, List.append_assoc, List.nil_append]
        rw [parseVal_succ, if_pos rfl, parseString_escape]
        rfl
      | arr xs =>
        simp only [strJ, List.cons_append]
        rw [parseVal_succ, if_neg (by decide), if_pos rfl,
          ihB xs rest (by simp only [sizeJ] at hsz; omega)]
        rfl
      | obj fs =>
        simp only [strJ, List.cons_append]
        rw [parseVal_succ, if_neg (by decide), if_neg (by decide), if_pos rfl,
          ihC fs rest (by simp only [sizeJ] at hsz; omega)]
        rfl
    · intro xs rest hsz
      cases xs with
      | nil =>
        simp only [strElems, List.cons_append, List.nil_append]
        rw [parseElems_succ, if_pos rfl]
      | cons x xs2 =>
        obtain ⟨c, cs, hc, hne1, hne2, hne3⟩ := strJ_cons x
        cases xs2 with
        | nil =>
          have hszx : sizeJ x ≤ f := by
            simp only [sizeL] at hsz; omega
          simp only [strElems, List.append_assoc, List.cons_append, List.nil_append]
          rw [hc, List.cons_append, parseElems_succ, if_neg hne1, ← List.cons_append, ← hc,
            ihA x (']' :: rest) hszx (by rw [headNotDigit_cons]; decide)]
          simp
        | cons y ys =>
          have hszx : sizeJ x ≤ f := by
            have h1 := sizeJ_pos y
            have h2 := sizeL_pos ys
            simp only [sizeL] at hsz
            omega
          have hszy : sizeL (y :: ys) ≤ f := by
            have h1 := sizeJ_pos x
            simp only [sizeL] at hsz ⊢
            omega
          simp only [strElems, List.append_assoc, List.cons_append, List.nil_append]
          rw [hc, List.cons_append, parseElems_succ, if_neg hne1, ← List.cons_append, ← hc,
            ihA x (',' :: (strElems (y :: ys) ++ rest)) hszx
              (by rw [headNotDigit_cons]; decide)]
          simp only []
          rw [ihB (y :: ys) rest hszy]
          simp
    · intro fs rest hsz
      cases fs with
      | nil =>
        simp only [strFields, List.cons_append, List.nil_append]
        rw [parseFields_succ, if_pos rfl]
      | cons g fs2 =>
        obtain ⟨k, v⟩ := g
        cases fs2 with
        | nil =>
          have hszv : sizeJ v ≤ f := by
            simp only [sizeF] at hsz; omega
          simp only [strFields, List.append_assoc, List.cons_append, List.nil_append]
          rw [parseFields_succ, if_neg (by decide), if_pos rfl, parseString_escape]
          simp only []
          rw [ihA v ('}' :: rest) hszv (by rw [headNotDigit_cons]; decide)]
          simp
        | cons g2 gs =>
          obtain ⟨k2, v2⟩ := g2
          have hszv : sizeJ v ≤ f := by
            have h1 := sizeJ_pos v2
            have h2 := sizeF_pos gs
            simp only [sizeF] at hsz
            omega
          have hszg : sizeF ((k2, v2) :: gs) ≤ f := by
            have h1 := sizeJ_pos v
            simp only [sizeF] at hsz ⊢
            omega
          simp only [strFields, List.append_assoc, List.cons_append, List.nil_append]
          rw [parseFields_succ, if_neg (by decide), if_pos rfl, parseString_escape]
          simp only []
          rw [ihA v (',' :: (strFields ((k2, v2) :: gs) ++ rest)) hszv
            (by rw [headNotDigit_cons]; decide)]
          simp only []
          rw [ihC ((k2, v2) :: gs) rest hszg]
          simp

mutual

theorem sizeJ_le_len : ∀ j : Json, sizeJ j ≤ (strJ j).length + 1
  | .null => by simp [sizeJ, strJ]
  | .bool b => by cases b <;> simp [sizeJ, strJ]
  | .num n => by simp [sizeJ]
  | .str s => by simp [sizeJ, strJ]
  | .arr xs => by
      have := sizeL_le_len xs
      simp only [sizeJ, strJ, List.length_cons]
      omega
  | .obj fs => by
      have := sizeF_le_len fs
      simp only [sizeJ, strJ, List.length_cons]
      omega

theorem sizeL_le_len : ∀ xs : List Json, sizeL xs ≤ (strElems xs).length + 1
  | [] => by simp [sizeL, strElems]
  | [x] => by
      have := sizeJ_le_len x
      simp only [sizeL, sizeJ, strElems, List.length_append, List.length_cons,
        List.length_nil]
      omega
  | x :: y :: xs => by
      have h1 := sizeJ_le_len x
      have h2 := sizeL_le_len (y :: xs)
      simp only [sizeL] at h2
      simp only [sizeL, strElems, List.length_append, List.length_cons]
      omega

theorem sizeF_le_len : ∀ fs : List (List Char × Json), sizeF fs ≤ (strFields fs).length + 1
  | [] => by simp [sizeF, strFields]
  | [(k, v)] => by
      have := sizeJ_le_len v
      simp only [sizeF, strFields, List.length_append, List.length_cons, List.length_nil]
      omega
  | (k, v) :: g :: fs => by
      have h1 := sizeJ_le_len v
      have h2 := sizeF_le_len (g :: fs)
      simp only [sizeF] at h2
      simp only [sizeF, strFields, List.length_append, List.length_cons]
      omega

end

/-- The parser inverts the serializer: `JSON.parse(JSON.stringify(v))`
recovers `v` for the values the code round-trips. -/
theorem parse_strJ (j : Json) : Json.parse (strJ j) = some j := by
  have h := (parse_round ((strJ j).length + 1)).1 j []
    (by have := sizeJ_le_len j; omega) rfl
  rw [List.append_nil] at h
  simp [Json.parse, h]

instance exceptDecEq {e a : Type} [DecidableEq e] [DecidableEq a] : DecidableEq (Except e a) :=
  fun x y =>
    match x, y with
    | .ok u, .ok v =>
      if h : u = v then isTrue (by rw [h]) else isFalse (by intro he; cases he; exact h rfl)
    | .error u, .error v =>
      if h : u = v then isTrue (by rw [h]) else isFalse (by intro he; cases he; exact h rfl)
    | .ok _, .error _ => isFalse (by intro he; cases he)
    | .error _, .ok _ => isFalse (by intro he; cases he)

/-! ## JS value semantics: truthiness, property access, trim, coercions -/

/-- JS truthiness of a possibly-undefined value (`none` = `undefined`).
`NaN` does not arise: numbers in the model are integers. -/
def jTruthy : Option Json → Bool
  | none => false
  | some .null => false
  | some (.bool b) => b
  | some (.num n) => decide (n ≠ 0)
  | some (.str s) => decide (s ≠ [])
  | some (.arr _) => true
  | some (.obj _) => true

/-- First binding of a key in a field list. -/
def jGetList : List (List Char × Json) → List Char → Option Json
  | [], _ => none
  | (k1, v) :: rest, k => if k1 = k then some v else jGetList rest k

/-- JS property read `j[k]`: objects look the key up, any other value yields
`undefined` (reads on `null` would throw, but the code never reads a
property of `null`: `decode` throws before that point). -/
def jGet (j : Json) (k : List Char) : Option Json :=
  match j with
  | .obj fs => jGetList fs k
  | _ => none

/-- Update the first binding of a key, else append (JS objects keep an
existing key's position and append new keys in insertion order). -/
def jSetList : List (List Char × Json) → List Char → Json → List (List Char × Json)
  | [], k, v => [(k, v)]
  | (k1, v1) :: rest, k, v =>
    if k1 = k then (k1, v) :: rest else (k1, v1) :: jSetList rest k v

/-- JS property write `j[k] = v` in sloppy mode: objects are updated,
primitives silently ignore the write. (Writing on an array stores a
non-index property invisible to the reads the code performs; modelled as a
no-op. Writing on `null` throws and is handled separately in `decode`.) -/
def jSet (j : Json) (k : List Char) (v : Json) : Json :=
  match j with
  | .obj fs => .obj (jSetList fs k v)
  | other => other

/-- JS `delete j[k]`: removes the binding on objects, no-op otherwise. -/
def jDel (j : Json) (k : List Char) : Json :=
  match j with
  | .obj fs => .obj (fs.filter (fun p => p.1 ≠ k))
  | other => other

/-- JS `a || b` on possibly-undefined values. -/
def jsOr (a b : Option Json) : Option Json := if jTruthy a then a else b

/-- JS whitespace for `String.trim` (the characters that can occur here). -/
def isWsCh (c : Char) : Bool := c = ' ' ∨ c = '\t' ∨ c = '\n' ∨ c = '\r'

/-- Model of `String.prototype.trim`. -/
def jsTrim (l : List Char) : List Char :=
  ((l.dropWhile isWsCh).reverse.dropWhile isWsCh).reverse

/-- Modelled builtin: `Date` strings are represented by the decimal string of
their millisecond value; `new Date(s)` parsing reads it back (`none` = an
invalid date, i.e. `NaN`). -/
def parseDateChars (s : List Char) : Option Int :=
  match parseNumber s with
  | some (v, []) => some v
  | _ => none

/-- Modelled builtin: `Number(new Date(v))` for the header values the code
feeds to `new Date`: strings parse as dates, numbers are the millisecond
value itself; other shapes (never produced by the modelled flows) are `NaN`. -/
def parseDateJson : Json → Option Int
  | .str s => parseDateChars s
  | .num n => some n
  | _ => none

/-- Modelled builtin: `(new Date(ms)).toUTCString()` — the RFC-1123 text has
whole-second resolution, so the represented instant is `ms` truncated
(floored) to a second boundary. -/
def toUTCString (ms : Int) : List Char := intToChars (1000 * (ms / 1000))

/-- Integer ceiling division (`Math.ceil(a / b)` for integer inputs, b > 0). -/
def ceilDiv (a b : Int) : Int := -((-a) / b)

/-- Modelled builtin: `Number(s)` string-to-number coercion as used by the
loose `!=` in `decode`: trimmed-empty is `0`, an optionally signed decimal
numeral is its value, anything else is `NaN` (`none`); fractional and
hex/exponent forms are outside the model. -/
def strToNumJS (s : List Char) : Option Int :=
  let t := jsTrim s
  if t = [] then some 0
  else
    match parseNumber t with
    | some (v, []) => some v
    | _ => none

/-! ## The codec (`src/index.js` lines 122-189) -/

/-- A JS error object as the code inspects it: an optional numeric
`statusCode` (`errcode` uses strict equality, so only number-valued codes
match) and the `tlcache` flag `decode` sets on replayed errors. -/
structure JsError where
  statusCode : Option Int := none
  tlcache : Bool := false
  deriving Repr, DecidableEq

/-- Model of `errcode` (lines 122-127): 404 and 403 are the cacheable
error classes, everything else (including no error) is not. -/
def errcode (err : Option JsError) : Option Int :=
  match err with
  | none => none
  | some e =>
    if e.statusCode = some 404 then some 404
    else if e.statusCode = some 403 then some 403
    else none

/-- The payload argument of `encode`: a Buffer, a JS string, or a non-Buffer
object (structured value). `none` at the call sites is JS `null`/`undefined`.
Number/boolean payloads are outside the model. -/
inductive InBuf where
  | buf (b : List Char)
  | str (s : List Char)
  | jsonVal (j : Json)
  deriving Repr, DecidableEq

/-- Encode failures: the explicit headers-size `Error` (line 149), or the
`TypeError` the host raises further down for a falsy payload (reading
`.length` of `null`, or `Buffer.concat` meeting the still-a-string empty
string — both reached only after the size check). -/
inductive EncErr where
  | headersTooLarge
  | typeErr
  deriving Repr, DecidableEq

/-- Encode results: the 3-character error sentinel string, `null`
("unhandled error, do not cache", line 133), or the packed buffer. -/
inductive EncOut where
  | sentinel (code : Int)
  | noCache
  | bytes (b : List Char)
  deriving Repr, DecidableEq

/-- Bytes of an encode result as handed to `client.set` (the sentinel is the
decimal string of the code; `noCache` never reaches a store write). -/
def encOutBytes : EncOut → List Char
  | .sentinel c => intToChars c
  | .noCache => []
  | .bytes b => b

def xtlJsonK : List Char := "x-tl-json".toList
def xtlCacheK : List Char := "x-tl-cache".toList
def xtlExpiresK : List Char := "x-tl-expires".toList
def contentLengthK : List Char := "content-length".toList
def upperExpiresK : List Char := "Expires".toList
def lowerExpiresK : List Char := "expires".toList
def hitV : List Char := "hit".toList

/-- Model of `encode` (lines 129-156). Besides the packed value it returns
the final value of the caller's headers object (the code mutates it in
place: the `x-tl-json` flag is set on it for structured payloads). -/
def encode (err : Option JsError) (buffer : Option InBuf) (headers : Option Json) :
    Except EncErr (EncOut × Option Json) :=
  match errcode err with
  | some c => .ok (.sentinel c, headers)
  | none =>
    if err.isSome then .ok (.noCache, headers)
    else
      let h0 : Json := match headers with
        | some h => if jTruthy (some h) then h else .obj []
        | none => .obj []
      let conv : Json × Option (List Char) :=
        match buffer with
        | some (.jsonVal j) => (jSet h0 xtlJsonK (.bool true), some (strJ j))
        | some (.str s) => (h0, if s = [] then none else some s)
        | some (.buf b) => (h0, some b)
        | none => (h0, none)
      let hbytes := strJ conv.1
      if hbytes.length > 1024 then .error .headersTooLarge
      else
        match conv.2 with
        | none => .error .typeErr
        | some b =>
          .ok (.bytes (hbytes ++ List.replicate (1024 - hbytes.length) ' ' ++ b),
            some conv.1)

/-- Decode failures: the format `Error` of line 177, the `TypeError` from
touching a property of a `null`/`undefined` value, the `SyntaxError` from
`JSON.parse` of the payload (line 184), and the content-length mismatch
`Error` of line 187. -/
inductive DecErr where
  | invalidCacheValue
  | typeErr
  | jsonSyntaxErr
  | contentMismatch
  deriving Repr, DecidableEq

/-- The decoded payload: raw bytes, or the re-parsed JSON value when the
`x-tl-json` flag was set. -/
inductive Payload where
  | bytes (b : List Char)
  | json (j : Json)
  deriving Repr, DecidableEq

/-- The object `decode` returns (`data`): any of the three fields may be
absent, matching the JS object's undefined properties. -/
structure DecodedData where
  err : Option JsError := none
  headers : Option Json := none
  buffer : Option Payload := none
  deriving Repr, DecidableEq

/-- JS `.length` of the decoded payload: byte length of a Buffer, element
count of a parsed array, character count of a parsed string, `undefined`
for other parsed values — and a `TypeError` for parsed `null`. -/
def payloadLen : Payload → Except DecErr (Option Int)
  | .bytes b => .ok (some (b.length : Int))
  | .json (.arr xs) => .ok (some (xs.length : Int))
  | .json (.str s) => .ok (some (s.length : Int))
  | .json .null => .error .typeErr
  | .json _ => .ok none

/-- JS loose `!=` between the (truthy) declared content-length and the
payload's `.length` (a number or `undefined`): numbers compare numerically,
strings coerce via `Number`, `undefined` differs from every number, `NaN`
differs from everything. Array/object-valued content-lengths would go
through `ToPrimitive` and are not modelled (treated as unequal; the
theorems below never reach that case). -/
def looseNeLen (cl : Json) (len : Option Int) : Bool :=
  match cl, len with
  | .num n, some m => decide (n ≠ m)
  | .num _, none => true
  | .str s, some m =>
    match strToNumJS s with
    | some v => decide (v ≠ m)
    | none => true
  | .str _, none => true
  | .bool b, some m => decide ((if b then (1 : Int) else 0) ≠ m)
  | .bool _, none => true
  | _, _ => true

/-- The content-length check of lines 186-187 plus the successful result. -/
def checkCL (h : Json) (buf : Payload) : Except DecErr DecodedData :=
  match jGet h contentLengthK with
  | some clv =>
    if jTruthy (some clv) then
      match payloadLen buf with
      | .error e => .error e
      | .ok len =>
        if looseNeLen clv len then .error .contentMismatch
        else .ok { headers := some h, buffer := some buf }
    else .ok { headers := some h, buffer := some buf }
  | none => .ok { headers := some h, buffer := some buf }

/-- Model of `decode` (lines 158-189). A 3-byte sentinel yields the replayed
error; otherwise the first 1024 bytes are trimmed and JSON-parsed as the
headers (any length is accepted — there is no minimum-length check in the
code), the `x-tl-cache` marker is set (a `TypeError` if the headers parsed
to `null`), the rest is the payload, re-parsed as JSON under the
`x-tl-json` flag, and a truthy `content-length` must loosely equal the
payload's `.length`. -/
def decode (encoded : List Char) : Except DecErr DecodedData :=
  if encoded = ['4', '0', '4'] then
    .ok { err := some { statusCode := some 404, tlcache := true } }
  else if encoded = ['4', '0', '3'] then
    .ok { err := some { statusCode := some 403, tlcache := true } }
  else
    match Json.parse (jsTrim (encoded.take 1024)) with
    | none => .error .invalidCacheValue
    | some h =>
      if h = .null then .error .typeErr
      else
        let h2 := jSet h xtlCacheK (.str hitV)
        let rawbuf := encoded.drop 1024
        if jTruthy (jGet h2 xtlJsonK) then
          match Json.parse rawbuf with
          | none => .error .jsonSyntaxErr
          | some bj => checkCL h2 (.json bj)
        else checkCL h2 (.bytes rawbuf)

/-! ## The write path `setEx` (lines 79-108) and freshness (lines 110-115) -/

/-- Result of a `setEx` call: the headers object it returns (and mutated in
place), and the arguments of the `client.set` call when one was issued
(the store TTL in seconds and the encoded value). -/
structure SetExResult where
  headersOut : Json
  setCall : Option (Int × List Char)
  deriving Repr, DecidableEq

/-- Lines 90-107 of `setEx`: read back `x-tl-expires`, compute the seconds
to expiration (`NaN` when the header is missing or unparseable), and issue
the store write only when strictly positive. `encode` can throw, which
propagates out of `setEx`. The single-instant clock `now` stands for both
`Date.now()` and `new Date()` (called microseconds apart in the code). -/
def setExFinish (err : Option JsError) (buffer : Option InBuf) (h2 : Json)
    (pad : Int) (now : Int) : Except EncErr SetExResult :=
  match jGet h2 xtlExpiresK with
  | none => .ok { headersOut := h2, setCall := none }
  | some v =>
    match parseDateJson v with
    | none => .ok { headersOut := h2, setCall := none }
    | some t =>
      if ceilDiv (t - now) 1000 > 0 then
        match encode err buffer (some h2) with
        | .error e => .error e
        | .ok (out, hOut) =>
          .ok { headersOut := hOut.getD h2,
                setCall := some (ceilDiv (t - now) 1000 + pad, encOutBytes out) }
      else .ok { headersOut := h2, setCall := none }

/-- Model of `setEx` (lines 79-108): take the first truthy of
`headers.Expires` / `headers.expires`, delete both, honor an explicit
expiration exactly (zero stale padding) or stamp `now + ttl` seconds
(stale padding added), then finish with the TTL computation and write. -/
def setEx (err : Option JsError) (buffer : Option InBuf) (headers : Json)
    (ttl stale : Int) (now : Int) : Except EncErr SetExResult :=
  let h1 := jDel (jDel headers upperExpiresK) lowerExpiresK
  match jsOr (jGet headers upperExpiresK) (jGet headers lowerExpiresK) with
  | some ev =>
    if jTruthy (some ev) then
      setExFinish err buffer (jSet (jSet h1 lowerExpiresK ev) xtlExpiresK ev) 0 now
    else
      setExFinish err buffer
        (jSet h1 xtlExpiresK (.str (toUTCString (now + ttl * 1000)))) stale now
  | none =>
    setExFinish err buffer
      (jSet h1 xtlExpiresK (.str (toUTCString (now + ttl * 1000)))) stale now

/-- Model of `isFresh` (lines 110-115): stale when the headers are absent or
`x-tl-expires` is falsy; otherwise fresh iff the parsed instant is strictly
after `now` (`NaN` compares false, hence stale). -/
def isFresh (d : DecodedData) (now : Int) : Bool :=
  match d.headers with
  | none => false
  | some h =>
    match jGet h xtlExpiresK with
    | none => false
    | some v =>
      if jTruthy (some v) then
        match parseDateJson v with
        | some t => decide (now < t)
        | none => false
      else false

/-! ## The orchestrator `cachingGet` (lines 32-77), as an event trace

The wrapped `get`, the store client and the clock are opaque collaborators;
an `Env` fixes their behavior for one request: the store lookup outcome,
the triple the underlying fetch passes to its callback, whether the store
write completion reports an error, and the current time. `cachingGet`
returns the ordered list of externally visible events. The key only tags
reported errors and is not tracked. -/

/-- What a reported error wraps: the store read error, a decode failure, a
store write completion error, or the underlying fetch's error. -/
inductive ErrObj where
  | storeGet
  | decodeFail (e : DecErr)
  | setFail
  | fetchE (e : JsError)
  deriving Repr, DecidableEq

/-- A value as delivered to the caller's callback: a Buffer, a string passed
through unchanged from the fetch, or a structured value. -/
inductive CbVal where
  | bytes (b : List Char)
  | jsStr (s : List Char)
  | json (j : Json)
  deriving Repr, DecidableEq

/-- Externally visible events, in order: an underlying fetch call, the
caller's callback, `client.error(e)`, `client.emit('error', e)`,
`client.set(key, ttl, value)`, or an uncaught exception from `encode`. -/
inductive Event where
  | fetchCall
  | callback (err : Option JsError) (buf : Option CbVal) (headers : Option Json)
  | clientError (e : ErrObj)
  | clientEmit (e : ErrObj)
  | clientSet (ttlSec : Int) (value : List Char)
  | crash (e : EncErr)
  deriving Repr, DecidableEq

/-- One request's environment: collaborator behavior and the clock. -/
structure Env where
  storeErr : Bool
  storeVal : Option (List Char)
  fetchErr : Option JsError
  fetchBuf : Option InBuf
  fetchHeaders : Option Json
  setErr : Bool
  now : Int
  deriving Repr, DecidableEq

/-- The fetch payload as the caller's callback receives it (unconverted:
`encode` reassigns only its local variable). -/
def cbOfIn : Option InBuf → Option CbVal
  | none => none
  | some (.buf b) => some (.bytes b)
  | some (.str s) => some (.jsStr s)
  | some (.jsonVal j) => some (.json j)

/-- The decoded payload as the caller's callback receives it. -/
def cbOfPayload : Option Payload → Option CbVal
  | none => none
  | some (.bytes b) => some (.bytes b)
  | some (.json j) => some (.json j)

/-- The `headers = headers || {}` defaulting on lines 64 and 72. -/
def headersOrEmpty (h : Option Json) : Json :=
  match h with
  | some hv => if jTruthy (some hv) then hv else .obj []
  | none => .obj []

/-- The `setEx` invocation shared by the miss path and the refresh path. -/
def runSetEx (ttl stale : Int) (env : Env) : Except EncErr SetExResult :=
  setEx env.fetchErr env.fetchBuf (headersOrEmpty env.fetchHeaders) ttl stale env.now

/-- Events of the miss-path `setEx` call followed by the caller's callback
(lines 72-74); a store write completion error is reported asynchronously
after the callback; an `encode` exception crashes before the callback. -/
def missSetPath (ttl stale : Int) (env : Env) : List Event :=
  match runSetEx ttl stale env with
  | .error e => [.crash e]
  | .ok r =>
    (match r.setCall with
     | some (t, v) => [.clientSet t v]
     | none => []) ++
    [.callback env.fetchErr (cbOfIn env.fetchBuf) (some r.headersOut)] ++
    (if r.setCall.isSome && env.setErr then [.clientError .setFail] else [])

/-- Events after a cache miss (lines 68-76): fetch, then either direct error
propagation (non-cacheable) or write-and-deliver. -/
def missEvents (ttl stale : Int) (env : Env) : List Event :=
  .fetchCall ::
    (match env.fetchErr with
     | some fe =>
       if errcode (some fe) = none then [.callback (some fe) none none]
       else missSetPath ttl stale env
     | none => missSetPath ttl stale env)

/-- Events of the background-refresh `setEx` call (line 65): no callback. -/
def bgSetPath (ttl stale : Int) (env : Env) : List Event :=
  match runSetEx ttl stale env with
  | .error e => [.crash e]
  | .ok r =>
    (match r.setCall with
     | some (t, v) => [.clientSet t v]
     | none => []) ++
    (if r.setCall.isSome && env.setErr then [.clientError .setFail] else [])

/-- Events of the background refresh after the fetch completed: either
`client.emit('error', err)` for a non-cacheable failure — note: not
`client.error` — or the store write path; never a callback. -/
def bgTail (ttl stale : Int) (env : Env) : List Event :=
  match env.fetchErr with
  | some fe =>
    if errcode (some fe) = none then [.clientEmit (.fetchE fe)]
    else bgSetPath ttl stale env
  | none => bgSetPath ttl stale env

/-- Events of the background refresh after a stale hit (lines 61-66): the
fetch call followed by its completion handling; the caller is never called
back. -/
def bgEvents (ttl stale : Int) (env : Env) : List Event :=
  .fetchCall :: bgTail ttl stale env

/-- Model of the function returned by `cachingGet` (lines 32-77), for one
request: store-error fallback (lines 42-46), hit with decode (lines 49-66),
or miss (lines 68-76). -/
def cachingGet (ttl stale : Int) (env : Env) : List Event :=
  if env.storeErr then
    [.clientError .storeGet, .fetchCall,
      .callback env.fetchErr (cbOfIn env.fetchBuf) env.fetchHeaders]
  else
    match env.storeVal with
    | some enc =>
      match decode enc with
      | .ok d =>
        .callback d.err (cbOfPayload d.buffer) d.headers ::
          (if isFresh d env.now then [] else bgEvents ttl stale env)
      | .error e => .clientError (.decodeFail e) :: missEvents ttl stale env
    | none => missEvents ttl stale env

/-! ## Helper lemmas on the JS property operations -/

theorem jGetList_jSetList_self (fs : List (List Char × Json)) (k : List Char) (v : Json) :
    jGetList (jSetList fs k v) k = some v := by
  induction fs with
  | nil => simp [jSetList, jGetList]
  | cons g rest ih =>
    obtain ⟨k1, v1⟩ := g
    by_cases h : k1 = k
    · simp [jSetList, jGetList, h]
    · simp [jSetList, jGetList, h, ih]

theorem jGetList_jSetList_other (fs : List (List Char × Json)) (k1 k2 : List Char) (v : Json)
    (h : k1 ≠ k2) : jGetList (jSetList fs k1 v) k2 = jGetList fs k2 := by
  induction fs with
  | nil => simp [jSetList, jGetList, h]
  | cons g rest ih =>
    obtain ⟨ka, va⟩ := g
    by_cases ha : ka = k1
    · subst ha
      simp [jSetList, jGetList, h]
    · simp [jSetList, jGetList, ha, ih]

theorem jGet_jSet_self (fs : List (List Char × Json)) (k : List Char) (v : Json) :
    jGet (jSet (.obj fs) k v) k = some v := by
  simp [jSet, jGet, jGetList_jSetList_self]

theorem jGet_jSet_other (fs : List (List Char × Json)) (k1 k2 : List Char) (v : Json)
    (h : k1 ≠ k2) : jGet (jSet (.obj fs) k1 v) k2 = jGet (.obj fs) k2 := by
  simp [jSet, jGet, jGetList_jSetList_other _ _ _ _ h]

theorem jGetList_filter_self (fs : List (List Char × Json)) (k : List Char) :
    jGetList (fs.filter (fun p => !decide (p.1 = k))) k = none := by
  induction fs with
  | nil => rfl
  | cons g rest ih =>
    obtain ⟨ka, va⟩ := g
    rw [List.filter_cons]
    by_cases ha : ka = k
    · subst ha
      simp [jGetList, ih]
    · simp [jGetList, ha, ih]

theorem jGetList_filter_other (fs : List (List Char × Json)) (k1 k2 : List Char)
    (h : k1 ≠ k2) : jGetList (fs.filter (fun p => !decide (p.1 = k1))) k2 = jGetList fs k2 := by
  induction fs with
  | nil => rfl
  | cons g rest ih =>
    obtain ⟨ka, va⟩ := g
    rw [List.filter_cons]
    by_cases ha : ka = k1
    · subst ha
      have hb : ka ≠ k2 := h
      simp [jGetList, hb, ih]
    · simp [jGetList, ha, ih]

theorem jGet_jDel_self (fs : List (List Char × Json)) (k : List Char) :
    jGet (jDel (.obj fs) k) k = none := by
  simp only [jDel, jGet, ne_eq, decide_not]
  exact jGetList_filter_self fs k

theorem jGet_jDel_other (fs : List (List Char × Json)) (k1 k2 : List Char) (h : k1 ≠ k2) :
    jGet (jDel (.obj fs) k1) k2 = jGet (.obj fs) k2 := by
  simp only [jDel, jGet, ne_eq, decide_not]
  exact jGetList_filter_other fs k1 k2 h

/-! ## Helper lemmas for slicing and trimming the encoded layout -/

theorem take_len_append (a b : List Char) (n : Nat) (h : a.length = n) :
    (a ++ b).take n = a := by
  subst h
  exact List.take_left a b

theorem drop_len_append (a b : List Char) (n : Nat) (h : a.length = n) :
    (a ++ b).drop n = b := by
  subst h
  exact List.drop_left a b

/-- Serialized objects end with the closing brace. -/
theorem strFields_last (fs : List (List Char × Json)) :
    ∃ t, strFields fs = t ++ ['}'] := by
  induction fs with
  | nil => exact ⟨[], rfl⟩
  | cons g rest ih =>
    obtain ⟨k, v⟩ := g
    cases rest with
    | nil => exact ⟨'"' :: (escapeStr k ++ '"' :: ':' :: strJ v), by simp [strFields]⟩
    | cons g2 gs =>
      obtain ⟨t, ht⟩ := ih
      exact ⟨'"' :: (escapeStr k ++ '"' :: ':' :: (strJ v ++ ',' :: t)), by
        simp [strFields, ht]⟩

theorem dropWhile_all_append {p : Char → Bool} (a b : List Char)
    (ha : ∀ c ∈ a, p c = true) : (a ++ b).dropWhile p = b.dropWhile p := by
  induction a with
  | nil => simp
  | cons x xs ih =>
    have hx := ha x (List.mem_cons_self _ _)
    simp [List.dropWhile, hx, ih (fun c hc => ha c (List.mem_cons_of_mem _ hc))]

/-- Trimming the serialized-object header block strips exactly the padding. -/
theorem jsTrim_pad (fs : List (List Char × Json)) (n : Nat) :
    jsTrim (strJ (.obj fs) ++ List.replicate n ' ') = strJ (.obj fs) := by
  obtain ⟨t, ht⟩ := strFields_last fs
  have hbrace : isWsCh '{' = false := by decide
  have hrbrace : isWsCh '}' = false := by decide
  have hstr : strJ (.obj fs) = '{' :: (t ++ ['}']) := by
    show '{' :: strFields fs = _
    rw [ht]
  rw [hstr]
  unfold jsTrim
  simp only [List.cons_append, List.append_assoc, List.nil_append]
  rw [List.dropWhile_cons_of_neg (by simp [hbrace])]
  have hrev : ('{' :: (t ++ '}' :: List.replicate n ' ')).reverse =
      List.replicate n ' ' ++ ('}' :: (t.reverse ++ ['{'])) := by
    simp [List.reverse_cons, List.reverse_append]
  rw [hrev, dropWhile_all_append _ _ (by intro c hc; rw [List.eq_of_mem_replicate hc]; decide),
    List.dropWhile_cons_of_neg (by simp [hrbrace])]
  simp

/-! ## Characterizations of `encode` and small facts used by the claims -/

/-- Bytes of an encode result, for naming concrete encoded values. -/
def encBytesOf (r : Except EncErr (EncOut × Option Json)) : List Char :=
  match r with
  | .ok (.bytes b, _) => b
  | _ => []

/-- The final state of the headers object after `encode` for a non-error
result: defaulted when absent/falsy, the `x-tl-json` flag added for a
structured payload (this is the mutation `encode` performs in place). -/
def encHeadersFinal (buffer : Option InBuf) (headers : Option Json) : Json :=
  match buffer with
  | some (.jsonVal _) => jSet (headersOrEmpty headers) xtlJsonK (.bool true)
  | _ => headersOrEmpty headers

/-- The payload bytes `encode` concatenates: a structured value serialized,
a non-empty string's bytes, a Buffer's bytes; `none` when the payload is
left a non-Buffer (falsy payload) and `Buffer.concat`/`.length` throw. -/
def encBufBytes : Option InBuf → Option (List Char)
  | some (.jsonVal j) => some (strJ j)
  | some (.str s) => if s = [] then none else some s
  | some (.buf b) => some b
  | none => none

theorem encode_none_eq (buffer : Option InBuf) (headers : Option Json) :
    encode none buffer headers =
      (if (strJ (encHeadersFinal buffer headers)).length > 1024 then .error .headersTooLarge
       else
         match encBufBytes buffer with
         | none => .error .typeErr
         | some b =>
           .ok (.bytes (strJ (encHeadersFinal buffer headers) ++
               List.replicate (1024 - (strJ (encHeadersFinal buffer headers)).length) ' ' ++ b),
             some (encHeadersFinal buffer headers))) := by
  cases buffer with
  | none => rfl
  | some ib => cases ib <;> rfl

theorem parseDateChars_intToChars (v : Int) : parseDateChars (intToChars v) = some v := by
  have h := parseNumber_intToChars v [] rfl
  rw [List.append_nil] at h
  simp [parseDateChars, h]

/-- The stamped-expiration arithmetic: the seconds from `now` to
`now + ttl` seconds truncated to a second boundary, rounded up, is `ttl`. -/
theorem sec_of_stamped (now ttl : Int) :
    ceilDiv (1000 * ((now + ttl * 1000) / 1000) - now) 1000 = ttl := by
  unfold ceilDiv
  omega

theorem payloadLen_error (buf : Payload) (e : DecErr) (h : payloadLen buf = .error e) :
    e = .typeErr := by
  cases buf with
  | bytes b => simp [payloadLen] at h
  | json j => cases j <;> simp_all [payloadLen]

theorem checkCL_ne_invalid (h : Json) (buf : Payload) :
    checkCL h buf ≠ .error .invalidCacheValue := by
  unfold checkCL
  cases hg : jGet h contentLengthK with
  | none => simp
  | some clv =>
    by_cases ht : jTruthy (some clv) = true
    · simp only [ht, if_true]
      cases hp : payloadLen buf with
      | error e =>
        have := payloadLen_error buf e hp
        subst this
        simp
      | ok len =>
        by_cases hne : looseNeLen clv len = true <;> simp [hne]
    · simp [ht]

theorem bgSetPath_no_callback (ttl stale : Int) (env : Env) (e : Option JsError)
    (b : Option CbVal) (hd : Option Json) :
    Event.callback e b hd ∉ bgSetPath ttl stale env := by
  unfold bgSetPath
  cases hr : runSetEx ttl stale env with
  | error er => simp
  | ok r =>
    cases hc : r.setCall with
    | none => simp [hc]
    | some p =>
      obtain ⟨t, v⟩ := p
      by_cases hs : env.setErr <;> simp [hc, hs]

theorem bgTail_no_callback (ttl stale : Int) (env : Env) (e : Option JsError)
    (b : Option CbVal) (hd : Option Json) :
    Event.callback e b hd ∉ bgTail ttl stale env := by
  unfold bgTail
  cases env.fetchErr with
  | none => exact bgSetPath_no_callback ttl stale env e b hd
  | some fe =>
    by_cases hcode : errcode (some fe) = none
    · simp [hcode]
    · simp only [if_neg hcode]
      exact bgSetPath_no_callback ttl stale env e b hd

/-! ## Claim theorems -/

/-- C9: encoding a result whose error has statusCode 404 or 403 yields the
3-byte sentinel string (payload and metadata ignored: the headers pass
through untouched), and decoding that sentinel yields the corresponding
error class (`statusCode`, `tlcache` set) with no payload and no metadata. -/
theorem c9_error_sentinel (e : JsError) (buf : Option InBuf) (h : Option Json)
    (hc : e.statusCode = some 404 ∨ e.statusCode = some 403) :
    ∃ c, encode (some e) buf h = .ok (.sentinel c, h) ∧
      (encOutBytes (.sentinel c)).length = 3 ∧
      decode (encOutBytes (.sentinel c)) =
        .ok { err := some { statusCode := some c, tlcache := true },
              headers := none, buffer := none } := by
  rcases hc with hc | hc
  · exact ⟨404, by simp [encode, errcode, hc], by decide, by decide⟩
  · exact ⟨403, by simp [encode, errcode, hc], by decide, by decide⟩

/-- Witness for C9 at a concrete 404-carrying error. -/
theorem c9_error_sentinel_witness :
    ∃ c, encode (some { statusCode := some 404 }) none none = .ok (.sentinel c, none) ∧
      (encOutBytes (.sentinel c)).length = 3 ∧
      decode (encOutBytes (.sentinel c)) =
        .ok { err := some { statusCode := some c, tlcache := true },
              headers := none, buffer := none } :=
  c9_error_sentinel { statusCode := some 404 } none none (Or.inl rfl)

/-- C4 counterexample: the two-byte input holding an open and a close brace
is not a sentinel and is far shorter than 1024 bytes, yet `decode` accepts
it — no length ≥ 1024 requirement is enforced. -/
theorem c4_counterexample :
    ("\x7b\x7d".toList).length < 1024 ∧ "\x7b\x7d".toList ≠ ['4', '0', '4'] ∧
      "\x7b\x7d".toList ≠ ['4', '0', '3'] ∧
      decode ("\x7b\x7d".toList) =
        .ok { headers := some (.obj [(xtlCacheK, .str hitV)]),
              buffer := some (.bytes []) } := by
  decide

/-- C4 (amended): `decode` enforces no minimum length; a non-sentinel input
of any length fails with the format error exactly when the trimmed first
1024 bytes do not parse as JSON. -/
theorem c4_no_min_length (l : List Char) (h404 : l ≠ ['4', '0', '4'])
    (h403 : l ≠ ['4', '0', '3']) :
    (decode l = .error .invalidCacheValue ↔ Json.parse (jsTrim (l.take 1024)) = none) := by
  unfold decode
  rw [if_neg h404, if_neg h403]
  cases hp : Json.parse (jsTrim (l.take 1024)) with
  | none => simp
  | some h =>
    simp only [Option.some_ne_none, iff_false]
    by_cases hnull : h = .null
    · simp [hnull]
    · rw [if_neg hnull]
      intro hEq
      split at hEq
      · split at hEq
        · simp at hEq
        · exact checkCL_ne_invalid _ _ hEq
      · exact checkCL_ne_invalid _ _ hEq

/-- Witness for C4 (amended) at the concrete two-byte brace input. -/
theorem c4_no_min_length_witness :
    (decode ("\x7b\x7d".toList) = .error .invalidCacheValue ↔
      Json.parse (jsTrim (("\x7b\x7d".toList).take 1024)) = none) :=
  c4_no_min_length ("\x7b\x7d".toList) (by decide) (by decide)

/-- C7: over entries whose expiration field (when present) is a header
string — the shape the code writes — the freshness test returns fresh iff
the metadata is present, carries `x-tl-expires`, and the instant it denotes
is strictly later than now; entries with no metadata or no expiration field
(or an unparseable one) are judged stale. -/
theorem c7_isFresh_iff (d : DecodedData) (now : Int)
    (hshape : ∀ h, d.headers = some h →
      jGet h xtlExpiresK = none ∨ ∃ s, jGet h xtlExpiresK = some (.str s)) :
    (isFresh d now = true ↔
      ∃ h s t, d.headers = some h ∧ jGet h xtlExpiresK = some (.str s) ∧
        parseDateChars s = some t ∧ now < t) := by
  cases hd : d.headers with
  | none => simp [isFresh, hd]
  | some h =>
    rcases hshape h hd with hg | ⟨s, hg⟩
    · simp [isFresh, hd, hg]
    · unfold isFresh
      rw [hd]
      simp only []
      rw [hg]
      simp only []
      by_cases hs : s = []
      · subst hs
        simp [jTruthy, parseDateChars, parseNumber, hg]
      · have htr : jTruthy (some (.str s)) = true := by simp [jTruthy, hs]
        rw [if_pos htr]
        cases hp : parseDateChars s with
        | none => simp [parseDateJson, hp, hg]
        | some t => simp [parseDateJson, hp, hg]

/-- Witness for C7 at a concrete fresh entry. -/
theorem c7_isFresh_iff_witness :
    isFresh { headers := some (.obj [(xtlExpiresK, .str (toUTCString 5000))]) } 0 = true ↔
      ∃ h s t,
        (some (.obj [(xtlExpiresK, .str (toUTCString 5000))]) : Option Json) = some h ∧
        jGet h xtlExpiresK = some (.str s) ∧ parseDateChars s = some t ∧ (0 : Int) < t :=
  c7_isFresh_iff { headers := some (.obj [(xtlExpiresK, .str (toUTCString 5000))]) } 0
    (by intro h hh; right; cases hh; exact ⟨toUTCString 5000, by decide⟩)

/-- C2 counterexample: with the 3-byte 404 sentinel stored (and the fetch
set up to answer), the lookup does invoke the underlying fetch — the claim
says no fetch occurs, neither synchronously nor in the background. -/
theorem c2_counterexample :
    Event.fetchCall ∈ cachingGet 300 300
      { storeErr := false, storeVal := some ['4', '0', '4'],
        fetchErr := some { statusCode := some 500 }, fetchBuf := none,
        fetchHeaders := none, setErr := false, now := 0 } := by
  decide

/-- C2 (amended): a lookup hitting the stored 404 sentinel replays the 404
error (tlcache-tagged, no payload, no metadata) to the caller with no fetch
before that callback; but since the sentinel entry carries no expiration
metadata it counts as stale, so a background revalidation fetch is then
issued — whose outcome is never delivered to the caller: the callback runs
exactly once, before the fetch. -/
theorem c2_cached_404_replay (ttl stale : Int) (env : Env)
    (hs : env.storeErr = false) (hv : env.storeVal = some ['4', '0', '4']) :
    cachingGet ttl stale env =
      .callback (some { statusCode := some 404, tlcache := true }) none none ::
        .fetchCall :: bgTail ttl stale env ∧
      ∀ e b h, Event.callback e b h ∉ bgTail ttl stale env := by
  constructor
  · unfold cachingGet
    rw [hs, hv]
    simp only [Bool.false_eq_true, if_false]
    have hdec : decode ['4', '0', '4'] =
        .ok { err := some { statusCode := some 404, tlcache := true } } := by decide
    rw [hdec]
    simp only []
    have hfr : isFresh ({ err := some { statusCode := some 404, tlcache := true } } :
        DecodedData) env.now = false := rfl
    rw [hfr]
    simp only [Bool.false_eq_true, if_false]
    rfl
  · intro e b h
    exact bgTail_no_callback ttl stale env e b h

/-- Witness for C2 (amended) at a concrete environment. -/
theorem c2_cached_404_replay_witness :
    cachingGet 300 300
        { storeErr := false, storeVal := some ['4', '0', '4'],
          fetchErr := some { statusCode := some 500 }, fetchBuf := none,
          fetchHeaders := none, setErr := false, now := 0 } =
      .callback (some { statusCode := some 404, tlcache := true }) none none ::
        .fetchCall :: bgTail 300 300
          { storeErr := false, storeVal := some ['4', '0', '4'],
            fetchErr := some { statusCode := some 500 }, fetchBuf := none,
            fetchHeaders := none, setErr := false, now := 0 } ∧
      ∀ e b h, Event.callback e b h ∉ bgTail 300 300
        { storeErr := false, storeVal := some ['4', '0', '4'],
          fetchErr := some { statusCode := some 500 }, fetchBuf := none,
          fetchHeaders := none, setErr := false, now := 0 } :=
  c2_cached_404_replay 300 300 _ rfl rfl

/-- C3 counterexample: a stale hit whose background fetch fails with a 500;
the full trace shows the error goes through `client.emit('error', err)` and
no `client.error(err)` call occurs at all (and no store write either) —
the claim names the client's `error(err)` operation as the sink. -/
theorem c3_counterexample :
    cachingGet 300 300
        { storeErr := false,
          storeVal := some (encBytesOf (encode none (some (.buf ['h', 'i']))
            (some (.obj [])))),
          fetchErr := some { statusCode := some 500 }, fetchBuf := none,
          fetchHeaders := none, setErr := false, now := 0 } =
      [.callback none (some (.bytes ['h', 'i'])) (some (.obj [(xtlCacheK, .str hitV)])),
        .fetchCall, .clientEmit (.fetchE { statusCode := some 500 })] ∧
      Event.clientError (.fetchE { statusCode := some 500 }) ∉ cachingGet 300 300
        { storeErr := false,
          storeVal := some (encBytesOf (encode none (some (.buf ['h', 'i']))
            (some (.obj [])))),
          fetchErr := some { statusCode := some 500 }, fetchBuf := none,
          fetchHeaders := none, setErr := false, now := 0 } := by
  constructor
  · decide
  · decide

/-- C3 (amended): during background revalidation after a stale hit, a fetch
completing with a non-cacheable error (statusCode neither 404 nor 403) is
reported via the client's `'error'` event — `client.emit('error', err)`,
not the `client.error(err)` method used on the other error paths — no store
write is performed, and the original caller (who already received the stale
value as the sole callback) is never notified again. -/
theorem c3_stale_refresh_error (ttl stale : Int) (env : Env) (enc : List Char)
    (d : DecodedData) (fe : JsError)
    (hs : env.storeErr = false) (hv : env.storeVal = some enc)
    (hd : decode enc = .ok d) (hstale : isFresh d env.now = false)
    (hf : env.fetchErr = some fe) (hcode : errcode (some fe) = none) :
    cachingGet ttl stale env =
      [.callback d.err (cbOfPayload d.buffer) d.headers, .fetchCall,
        .clientEmit (.fetchE fe)] := by
  unfold cachingGet
  rw [hs, hv]
  simp only [Bool.false_eq_true, if_false]
  rw [hd]
  simp only []
  rw [hstale]
  simp only [Bool.false_eq_true, if_false]
  unfold bgEvents bgTail
  rw [hf]
  simp only [hcode, if_true]

/-- Witness for C3 (amended) at the concrete stale-hit environment. -/
theorem c3_stale_refresh_error_witness :
    cachingGet 300 300
        { storeErr := false,
          storeVal := some (encBytesOf (encode none (some (.buf ['h', 'i']))
            (some (.obj [])))),
          fetchErr := some { statusCode := some 500 }, fetchBuf := none,
          fetchHeaders := none, setErr := false, now := 0 } =
      [.callback none (some (.bytes ['h', 'i'])) (some (.obj [(xtlCacheK, .str hitV)])),
        .fetchCall, .clientEmit (.fetchE { statusCode := some 500 })] :=
  c3_stale_refresh_error 300 300
    { storeErr := false,
      storeVal := some (encBytesOf (encode none (some (.buf ['h', 'i']))
        (some (.obj [])))),
      fetchErr := some { statusCode := some 500 }, fetchBuf := none,
      fetchHeaders := none, setErr := false, now := 0 }
    (encBytesOf (encode none (some (.buf ['h', 'i'])) (some (.obj []))))
    { headers := some (.obj [(xtlCacheK, .str hitV)]), buffer := some (.bytes ['h', 'i']) }
    { statusCode := some 500 }
    rfl rfl (by decide) (by decide) rfl rfl

/-- C5 counterexample: a structured payload stored with a declared
content-length of exactly its raw byte length (the serialized payload is
the 2-byte object text) still fails decode: under the `x-tl-json` flag the
comparison uses the re-parsed value's `.length` (undefined for an object),
not the raw byte count. -/
theorem c5_counterexample :
    (encBytesOf (encode none (some (.jsonVal (.obj [])))
        (some (.obj [(contentLengthK, .num 2)])))).drop 1024 = "\x7b\x7d".toList ∧
      decode (encBytesOf (encode none (some (.jsonVal (.obj [])))
        (some (.obj [(contentLengthK, .num 2)])))) = .error .contentMismatch := by
  constructor
  · decide
  · decide

/-- C5 (amended): when the decoded metadata does not set the `x-tl-json`
flag, a declared non-zero numeric content-length makes decode fail with the
content-mismatch error iff it differs from the raw payload byte length
(and decode succeeds when it matches). With the flag set, the comparison
is against the re-parsed value's `.length` instead (see the
counterexample), so a matching raw byte length does not guarantee success. -/
theorem c5_raw_content_length (l : List Char) (fs : List (List Char × Json)) (n : Int)
    (h404 : l ≠ ['4', '0', '4']) (h403 : l ≠ ['4', '0', '3'])
    (hp : Json.parse (jsTrim (l.take 1024)) = some (.obj fs))
    (hflag : jTruthy (jGet (jSet (.obj fs) xtlCacheK (.str hitV)) xtlJsonK) = false)
    (hcl : jGet (jSet (.obj fs) xtlCacheK (.str hitV)) contentLengthK = some (.num n))
    (hn : n ≠ 0) :
    (decode l = .error .contentMismatch ↔ n ≠ ((l.drop 1024).length : Int)) ∧
      (n = ((l.drop 1024).length : Int) →
        decode l = .ok { headers := some (jSet (.obj fs) xtlCacheK (.str hitV)),
                         buffer := some (.bytes (l.drop 1024)) }) := by
  have hbody : decode l = checkCL (jSet (.obj fs) xtlCacheK (.str hitV)) (.bytes (l.drop 1024)) := by
    unfold decode
    rw [if_neg h404, if_neg h403, hp]
    simp only []
    rw [if_neg (by simp : ¬(Json.obj fs = Json.null))]
    simp only [hflag, Bool.false_eq_true, if_false]
  have htr : jTruthy (some (.num n)) = true := by simp [jTruthy, hn]
  have hck : checkCL (jSet (.obj fs) xtlCacheK (.str hitV)) (.bytes (l.drop 1024)) =
      (if n ≠ ((l.drop 1024).length : Int) then .error .contentMismatch
       else .ok { headers := some (jSet (.obj fs) xtlCacheK (.str hitV)),
                  buffer := some (.bytes (l.drop 1024)) }) := by
    unfold checkCL
    rw [hcl]
    simp only [htr, if_true, payloadLen, looseNeLen]
    by_cases hne : n = ((l.drop 1024).length : Int)
    · simp [hne]
    · simp [hne]
  rw [hbody, hck]
  by_cases hne : n = ((l.drop 1024).length : Int)
  · simp [hne]
  · simp [hne]

/-- Witness for C5 (amended) at a concrete raw-payload entry declaring the
matching content-length 2. -/
theorem c5_raw_content_length_witness :
    (decode (encBytesOf (encode none (some (.buf ['h', 'i']))
        (some (.obj [(contentLengthK, .num 2)])))) = .error .contentMismatch ↔
      (2 : Int) ≠
        (((encBytesOf (encode none (some (.buf ['h', 'i']))
          (some (.obj [(contentLengthK, .num 2)])))).drop 1024).length : Int)) ∧
      ((2 : Int) =
          (((encBytesOf (encode none (some (.buf ['h', 'i']))
            (some (.obj [(contentLengthK, .num 2)])))).drop 1024).length : Int) →
        decode (encBytesOf (encode none (some (.buf ['h', 'i']))
            (some (.obj [(contentLengthK, .num 2)])))) =
          .ok { headers := some (jSet (.obj [(contentLengthK, .num 2)]) xtlCacheK
                  (.str hitV)),
                buffer := some (.bytes ((encBytesOf (encode none (some (.buf ['h', 'i']))
                  (some (.obj [(contentLengthK, .num 2)])))).drop 1024)) }) :=
  c5_raw_content_length _ [(contentLengthK, .num 2)] 2 (by decide) (by decide) (by decide)
    (by decide) (by decide) (by decide)

/-- C8 counterexample: with metadata serializing to far less than 1024
bytes, an empty-string payload (falsy, so it stays a plain string) makes
`encode` raise the host `TypeError` from `Buffer.concat` rather than
succeed — the claim's "Encode succeeds" half does not hold for it. -/
theorem c8_counterexample :
    (strJ (encHeadersFinal (some (.str [])) (some (.obj [])))).length ≤ 1024 ∧
      encode none (some (.str [])) (some (.obj [])) = .error .typeErr := by
  constructor
  · decide
  · decide

/-- C8 (amended): for a non-error input, `encode` fails with the
headers-size error whenever the final metadata (with the `x-tl-json` flag
for structured payloads) serializes to more than 1024 bytes — regardless
of the payload, and never by truncating; within the bound it succeeds with
the documented layout for payloads that convert to bytes (a Buffer, an
object, or a non-empty string), while falsy payloads raise a TypeError. -/
theorem c8_metadata_size (buffer : Option InBuf) (headers : Option Json) :
    ((strJ (encHeadersFinal buffer headers)).length > 1024 →
      encode none buffer headers = .error .headersTooLarge) ∧
    (∀ b, (strJ (encHeadersFinal buffer headers)).length ≤ 1024 →
      encBufBytes buffer = some b →
      encode none buffer headers =
        .ok (.bytes (strJ (encHeadersFinal buffer headers) ++
            List.replicate (1024 - (strJ (encHeadersFinal buffer headers)).length) ' ' ++ b),
          some (encHeadersFinal buffer headers))) := by
  constructor
  · intro hbig
    rw [encode_none_eq, if_pos hbig]
  · intro b hsmall hb
    rw [encode_none_eq, if_neg (by omega), hb]

/-- Witness for C8 (amended) at a concrete small-metadata Buffer payload. -/
theorem c8_metadata_size_witness :
    encode none (some (.buf ['h', 'i'])) (some (.obj [])) =
      .ok (.bytes (strJ (encHeadersFinal (some (.buf ['h', 'i'])) (some (.obj []))) ++
          List.replicate
            (1024 - (strJ (encHeadersFinal (some (.buf ['h', 'i'])) (some (.obj [])))).length)
            ' ' ++ ['h', 'i']),
        some (encHeadersFinal (some (.buf ['h', 'i'])) (some (.obj [])))) :=
  (c8_metadata_size (some (.buf ['h', 'i'])) (some (.obj []))).2 ['h', 'i'] (by decide)
    (by decide)

/-- Reads of any key other than the `x-tl-json` flag are unchanged by the
headers mutation `encode` performs. -/
theorem encode_headersOut_get (err : Option JsError) (buffer : Option InBuf)
    (fs : List (List Char × Json)) (k : List Char) (hk : k ≠ xtlJsonK)
    (out : EncOut) (hOut : Option Json)
    (henc : encode err buffer (some (.obj fs)) = .ok (out, hOut)) :
    jGet (hOut.getD (.obj fs)) k = jGet (.obj fs) k := by
  cases err with
  | some e =>
    unfold encode at henc
    cases hc : errcode (some e) with
    | some c =>
      rw [hc] at henc
      simp only [Except.ok.injEq, Prod.mk.injEq] at henc
      rw [← henc.2]
      rfl
    | none =>
      rw [hc] at henc
      simp only [Option.isSome_some, if_true] at henc
      simp only [Except.ok.injEq, Prod.mk.injEq] at henc
      rw [← henc.2]
      rfl
  | none =>
    rw [encode_none_eq] at henc
    by_cases hbig : (strJ (encHeadersFinal buffer (some (.obj fs)))).length > 1024
    · rw [if_pos hbig] at henc
      simp at henc
    · rw [if_neg hbig] at henc
      cases hb : encBufBytes buffer with
      | none =>
        rw [hb] at henc
        simp at henc
      | some b =>
        rw [hb] at henc
        simp only [Except.ok.injEq, Prod.mk.injEq] at henc
        rw [← henc.2]
        simp only [Option.getD_some]
        cases buffer with
        | none => rfl
        | some ib =>
          cases ib with
          | jsonVal j =>
            show jGet (jSet (headersOrEmpty (some (.obj fs))) xtlJsonK (.bool true)) k = _
            have hOE : headersOrEmpty (some (.obj fs)) = .obj fs := rfl
            rw [hOE]
            exact jGet_jSet_other fs xtlJsonK k (.bool true) (fun he => hk he.symm)
          | str s => rfl
          | buf b2 => rfl

/-- Behavior of the tail of `setEx` once the `x-tl-expires` header is in
place on an object headers map: the store write happens iff the seconds to
expiration are strictly positive, with the given stale padding added to the
store TTL; the header value is returned unchanged (the `x-tl-json`
mutation aside). -/
theorem setExFinish_char (err : Option JsError) (buffer : Option InBuf)
    (h2 : Json) (gs : List (List Char × Json)) (hobj : h2 = .obj gs)
    (pad now : Int) (ev : Json) (t : Int)
    (hG : jGet h2 xtlExpiresK = some ev)
    (ht : parseDateJson ev = some t) :
    ∀ res, setExFinish err buffer h2 pad now = .ok res →
      jGet res.headersOut xtlExpiresK = some ev ∧
      res.setCall.map Prod.fst =
        (if 0 < ceilDiv (t - now) 1000 then some (ceilDiv (t - now) 1000 + pad) else none) := by
  subst hobj
  intro res hok
  unfold setExFinish at hok
  rw [hG] at hok
  simp only [] at hok
  rw [ht] at hok
  simp only [] at hok
  by_cases hS : ceilDiv (t - now) 1000 > 0
  · rw [if_pos hS] at hok
    cases henc : encode err buffer (some (.obj gs)) with
    | error e =>
      rw [henc] at hok
      simp at hok
    | ok p =>
      obtain ⟨out, hOut⟩ := p
      rw [henc] at hok
      simp only [Except.ok.injEq] at hok
      subst hok
      constructor
      · show jGet (hOut.getD (.obj gs)) xtlExpiresK = some ev
        rw [encode_headersOut_get err buffer gs xtlExpiresK (by decide) out hOut henc]
        exact hG
      · simp [hS]
  · rw [if_neg hS] at hok
    simp only [Except.ok.injEq] at hok
    subst hok
    exact ⟨hG, by simp [hS]⟩

/-- C6: on a cache write over an object headers map, (a) with an explicit
expiration (first truthy of `Expires`/`expires`, denoting instant `t`) the
stored `x-tl-expires` equals it exactly and the store TTL is the seconds
until `t` with zero stale padding, written only when strictly positive;
(b) with no explicit expiration the stored `x-tl-expires` is the formatted
instant `now + ttl` seconds and the store TTL is `ttl + stale`, written
only when `ttl` is strictly positive; in both cases a non-positive
seconds-to-expiration means no store write at all. -/
theorem c6_setEx_ttl (err : Option JsError) (buffer : Option InBuf)
    (fs : List (List Char × Json)) (ttl stale now : Int) :
    (∀ ev t res,
      jsOr (jGet (.obj fs) upperExpiresK) (jGet (.obj fs) lowerExpiresK) = some ev →
      jTruthy (some ev) = true →
      parseDateJson ev = some t →
      setEx err buffer (.obj fs) ttl stale now = .ok res →
      jGet res.headersOut xtlExpiresK = some ev ∧
      res.setCall.map Prod.fst =
        (if 0 < ceilDiv (t - now) 1000 then some (ceilDiv (t - now) 1000) else none)) ∧
    (jTruthy (jsOr (jGet (.obj fs) upperExpiresK) (jGet (.obj fs) lowerExpiresK)) = false →
      ∀ res, setEx err buffer (.obj fs) ttl stale now = .ok res →
      jGet res.headersOut xtlExpiresK = some (.str (toUTCString (now + ttl * 1000))) ∧
      res.setCall.map Prod.fst = (if 0 < ttl then some (ttl + stale) else none)) := by
  constructor
  · intro ev t res hor htr ht hok
    unfold setEx at hok
    rw [hor] at hok
    simp only [htr, if_true] at hok
    have h := setExFinish_char err buffer
      (jSet (jSet (jDel (jDel (Json.obj fs) upperExpiresK) lowerExpiresK) lowerExpiresK ev)
        xtlExpiresK ev)
      _ rfl 0 now ev t (jGet_jSet_self _ _ _) ht res hok
    refine ⟨h.1, ?_⟩
    rw [h.2]
    by_cases hS : 0 < ceilDiv (t - now) 1000 <;> simp [hS]
  · intro hfalse res hok
    unfold setEx at hok
    have hstamp : parseDateJson (.str (toUTCString (now + ttl * 1000))) =
        some (1000 * ((now + ttl * 1000) / 1000)) := by
      show parseDateChars (toUTCString (now + ttl * 1000)) = _
      exact parseDateChars_intToChars _
    have hsec : ceilDiv (1000 * ((now + ttl * 1000) / 1000) - now) 1000 = ttl :=
      sec_of_stamped now ttl
    cases hjs : jsOr (jGet (.obj fs) upperExpiresK) (jGet (.obj fs) lowerExpiresK) with
    | none =>
      rw [hjs] at hok
      have h := setExFinish_char err buffer
        (jSet (jDel (jDel (Json.obj fs) upperExpiresK) lowerExpiresK) xtlExpiresK
          (.str (toUTCString (now + ttl * 1000))))
        _ rfl stale now (.str (toUTCString (now + ttl * 1000)))
        (1000 * ((now + ttl * 1000) / 1000)) (jGet_jSet_self _ _ _) hstamp res hok
      refine ⟨h.1, ?_⟩
      rw [h.2, hsec]
    | some ev =>
      rw [hjs] at hok
      rw [hjs] at hfalse
      simp only [hfalse, Bool.false_eq_true, if_false] at hok
      have h := setExFinish_char err buffer
        (jSet (jDel (jDel (Json.obj fs) upperExpiresK) lowerExpiresK) xtlExpiresK
          (.str (toUTCString (now + ttl * 1000))))
        _ rfl stale now (.str (toUTCString (now + ttl * 1000)))
        (1000 * ((now + ttl * 1000) / 1000)) (jGet_jSet_self _ _ _) hstamp res hok
      refine ⟨h.1, ?_⟩
      rw [h.2, hsec]

/-- Witness for C6 at a concrete no-explicit-expiration write. -/
theorem c6_setEx_ttl_witness :
    jGet ({ headersOut := .obj [(xtlExpiresK, .str (toUTCString 300000))],
            setCall := some (600, encBytesOf (encode none (some (.buf ['h', 'i']))
              (some (.obj [(xtlExpiresK, .str (toUTCString 300000))])))) } :
          SetExResult).headersOut xtlExpiresK =
        some (.str (toUTCString (0 + 300 * 1000))) ∧
      ({ headersOut := .obj [(xtlExpiresK, .str (toUTCString 300000))],
         setCall := some (600, encBytesOf (encode none (some (.buf ['h', 'i']))
           (some (.obj [(xtlExpiresK, .str (toUTCString 300000))])))) } :
          SetExResult).setCall.map Prod.fst =
        (if (0 : Int) < 300 then some ((300 : Int) + 300) else none) :=
  (c6_setEx_ttl none (some (.buf ['h', 'i'])) [] 300 300 0).2 (by decide) _ (by decide)

/-- The decoded form of an encoded payload: strings and Buffers come back
as their bytes, structured values as the re-parsed JSON value. -/
def decodedPayload : InBuf → Payload
  | .str s => .bytes s
  | .buf b => .bytes b
  | .jsonVal j => .json j

/-- Decoding a value laid out as `encode` produces it (a ≤ 1024-byte
serialized object header, space padding to exactly 1024 bytes, then the
payload bytes) reaches the payload stage with exactly the original headers
object. -/
theorem decode_of_encoded_block (gs : List (List Char × Json)) (pb : List Char)
    (hsize : (strJ (Json.obj gs)).length ≤ 1024) :
    decode (strJ (.obj gs) ++ List.replicate (1024 - (strJ (.obj gs)).length) ' ' ++ pb) =
      (if jTruthy (jGet (jSet (.obj gs) xtlCacheK (.str hitV)) xtlJsonK) then
        match Json.parse pb with
        | none => .error .jsonSyntaxErr
        | some bj => checkCL (jSet (.obj gs) xtlCacheK (.str hitV)) (.json bj)
      else checkCL (jSet (.obj gs) xtlCacheK (.str hitV)) (.bytes pb)) := by
  have hblock :
      (strJ (Json.obj gs) ++ List.replicate (1024 - (strJ (Json.obj gs)).length) ' ').length
        = 1024 := by
    simp only [List.length_append, List.length_replicate]
    omega
  have hlen :
      (((strJ (.obj gs) ++ List.replicate (1024 - (strJ (.obj gs)).length) ' ')) ++ pb).length
        = 1024 + pb.length := by
    simp only [List.length_append, List.length_replicate]
    omega
  have h404 : ((strJ (.obj gs) ++ List.replicate (1024 - (strJ (.obj gs)).length) ' ') ++ pb)
      ≠ ['4', '0', '4'] := by
    intro he
    have hL := congrArg List.length he
    rw [hlen] at hL
    simp at hL
    omega
  have h403 : ((strJ (.obj gs) ++ List.replicate (1024 - (strJ (.obj gs)).length) ' ') ++ pb)
      ≠ ['4', '0', '3'] := by
    intro he
    have hL := congrArg List.length he
    rw [hlen] at hL
    simp at hL
    omega
  unfold decode
  rw [if_neg h404, if_neg h403, take_len_append _ _ _ hblock, drop_len_append _ _ _ hblock,
    jsTrim_pad, parse_strJ]
  simp only []
  rw [if_neg (by simp : ¬(Json.obj gs = Json.null))]

/-- A raw-bytes payload passes the content-length check when the metadata
declares none or declares exactly its byte length. -/
theorem checkCL_bytes_ok (h2 : Json) (b : List Char)
    (hcl : jGet h2 contentLengthK = none ∨
      jGet h2 contentLengthK = some (.num (b.length : Int))) :
    checkCL h2 (.bytes b) = .ok { headers := some h2, buffer := some (.bytes b) } := by
  unfold checkCL
  rcases hcl with hcl | hcl
  · rw [hcl]
  · rw [hcl]
    by_cases hz : ((b.length : Int) = 0)
    · simp [jTruthy, hz]
    · have htr : jTruthy (some (.num (b.length : Int))) = true := by simp [jTruthy, hz]
      simp only [htr, if_true, payloadLen, looseNeLen]
      simp

/-- Any payload passes the content-length check when no content-length is
declared. -/
theorem checkCL_none_ok (h2 : Json) (buf : Payload)
    (hcl : jGet h2 contentLengthK = none) :
    checkCL h2 buf = .ok { headers := some h2, buffer := some buf } := by
  unfold checkCL
  rw [hcl]

/-- C1 (amended): for a payload that is a Buffer, a non-empty string, or a
structured value, metadata that is an object not using the reserved
`x-tl-json` flag, whose final serialized form fits in 1024 bytes, and whose
declared content-length (if any) is the numeric byte length of the encoded
payload — with none declared for structured payloads, whose check compares
the re-parsed value's `.length` instead — decoding the encoded value
succeeds and reproduces the payload (same bytes for string/Buffer, the
structured value re-parsed via the flag) and the semantic metadata: the
original object plus the cache layer's own `x-tl-json`/`x-tl-cache`
markers. -/
theorem c1_roundtrip (payload : InBuf) (fs : List (List Char × Json))
    (hsize : (strJ (encHeadersFinal (some payload) (some (.obj fs)))).length ≤ 1024)
    (hflag : jGet (.obj fs) xtlJsonK = none)
    (hpl : match payload with
      | .str s => s ≠ [] ∧ (jGet (.obj fs) contentLengthK = none ∨
          jGet (.obj fs) contentLengthK = some (.num (s.length : Int)))
      | .buf b => jGet (.obj fs) contentLengthK = none ∨
          jGet (.obj fs) contentLengthK = some (.num (b.length : Int))
      | .jsonVal _ => jGet (.obj fs) contentLengthK = none) :
    decode (encBytesOf (encode none (some payload) (some (.obj fs)))) =
      .ok { headers := some (jSet (encHeadersFinal (some payload) (some (.obj fs)))
              xtlCacheK (.str hitV)),
            buffer := some (decodedPayload payload) } := by
  cases payload with
  | buf b =>
    have hF : encHeadersFinal (some (.buf b)) (some (.obj fs)) = .obj fs := rfl
    rw [hF] at hsize ⊢
    have henc : encode none (some (.buf b)) (some (.obj fs)) =
        .ok (.bytes (strJ (.obj fs) ++
            List.replicate (1024 - (strJ (.obj fs)).length) ' ' ++ b),
          some (.obj fs)) := by
      rw [encode_none_eq, if_neg (by rw [hF]; omega)]
      rfl
    rw [henc]
    show decode (strJ (.obj fs) ++ List.replicate (1024 - (strJ (.obj fs)).length) ' ' ++ b)
      = _
    rw [decode_of_encoded_block fs b hsize]
    have hj : jGet (jSet (.obj fs) xtlCacheK (.str hitV)) xtlJsonK = none := by
      rw [jGet_jSet_other fs xtlCacheK xtlJsonK _ (by decide)]
      exact hflag
    rw [hj]
    simp only [jTruthy, Bool.false_eq_true, if_false]
    refine checkCL_bytes_ok _ b ?_
    rw [jGet_jSet_other fs xtlCacheK contentLengthK _ (by decide)]
    exact hpl
  | str s =>
    obtain ⟨hne, hcl⟩ := hpl
    have hF : encHeadersFinal (some (.str s)) (some (.obj fs)) = .obj fs := rfl
    rw [hF] at hsize ⊢
    have henc : encode none (some (.str s)) (some (.obj fs)) =
        .ok (.bytes (strJ (.obj fs) ++
            List.replicate (1024 - (strJ (.obj fs)).length) ' ' ++ s),
          some (.obj fs)) := by
      rw [encode_none_eq, if_neg (by rw [hF]; omega)]
      rw [show encBufBytes (some (InBuf.str s)) = if s = [] then none else some s from rfl]
      rw [if_neg hne]
      rfl
    rw [henc]
    show decode (strJ (.obj fs) ++ List.replicate (1024 - (strJ (.obj fs)).length) ' ' ++ s)
      = _
    rw [decode_of_encoded_block fs s hsize]
    have hj : jGet (jSet (.obj fs) xtlCacheK (.str hitV)) xtlJsonK = none := by
      rw [jGet_jSet_other fs xtlCacheK xtlJsonK _ (by decide)]
      exact hflag
    rw [hj]
    simp only [jTruthy, Bool.false_eq_true, if_false]
    refine checkCL_bytes_ok _ s ?_
    rw [jGet_jSet_other fs xtlCacheK contentLengthK _ (by decide)]
    exact hcl
  | jsonVal j =>
    have hF : encHeadersFinal (some (.jsonVal j)) (some (.obj fs)) =
        .obj (jSetList fs xtlJsonK (.bool true)) := rfl
    rw [hF] at hsize ⊢
    have henc : encode none (some (.jsonVal j)) (some (.obj fs)) =
        .ok (.bytes (strJ (.obj (jSetList fs xtlJsonK (.bool true))) ++
            List.replicate
              (1024 - (strJ (.obj (jSetList fs xtlJsonK (.bool true)))).length) ' ' ++
            strJ j),
          some (.obj (jSetList fs xtlJsonK (.bool true)))) := by
      rw [encode_none_eq, if_neg (by rw [hF]; omega)]
      rfl
    rw [henc]
    show decode (strJ (.obj (jSetList fs xtlJsonK (.bool true))) ++
        List.replicate (1024 - (strJ (.obj (jSetList fs xtlJsonK (.bool true)))).length) ' '
        ++ strJ j) = _
    rw [decode_of_encoded_block (jSetList fs xtlJsonK (.bool true)) (strJ j) hsize]
    have hj : jGet (jSet (.obj (jSetList fs xtlJsonK (.bool true))) xtlCacheK (.str hitV))
        xtlJsonK = some (.bool true) := by
      rw [jGet_jSet_other _ xtlCacheK xtlJsonK _ (by decide)]
      exact jGet_jSet_self fs xtlJsonK (.bool true)
    rw [hj]
    simp only [jTruthy, if_true]
    rw [parse_strJ j]
    refine checkCL_none_ok _ _ ?_
    rw [jGet_jSet_other _ xtlCacheK contentLengthK _ (by decide)]
    show jGet (jSet (.obj fs) xtlJsonK (.bool true)) contentLengthK = none
    rw [jGet_jSet_other fs xtlJsonK contentLengthK _ (by decide)]
    exact hpl

/-- Witness for C1 (amended) at a concrete Buffer payload and metadata. -/
theorem c1_roundtrip_witness :
    decode (encBytesOf (encode none (some (.buf ['h', 'i']))
        (some (.obj [(contentLengthK, .num 2)])))) =
      .ok { headers := some (jSet (encHeadersFinal (some (.buf ['h', 'i']))
              (some (.obj [(contentLengthK, .num 2)]))) xtlCacheK (.str hitV)),
            buffer := some (decodedPayload (.buf ['h', 'i'])) } :=
  c1_roundtrip (.buf ['h', 'i']) [(contentLengthK, .num 2)] (by decide) (by decide)
    (by decide)

/-- C1 counterexample: a structured (array) payload whose metadata declares
a content-length equal to the payload's serialized byte length (2) — a
non-error pair with tiny metadata — fails to decode: the `x-tl-json` flag
makes the check compare the re-parsed array's element count (0) instead of
the raw byte length. -/
theorem c1_counterexample :
    (encBytesOf (encode none (some (.jsonVal (.arr [])))
        (some (.obj [(contentLengthK, .num 2)])))).drop 1024 = ['[', ']'] ∧
      decode (encBytesOf (encode none (some (.jsonVal (.arr [])))
        (some (.obj [(contentLengthK, .num 2)])))) = .error .contentMismatch := by
  constructor
  · decide
  · decide

/-! ## Reference-passing wrappers: observing the in-place mutations

The pure functions above return the final value of the caller's headers
object; the JS code reaches that value by mutating the object in place. To
state that, a small heap maps object ids to their current values; the
wrappers below perform exactly the field updates the code performs, through
the caller's reference. -/

abbrev ObjId := Nat

/-- A heap of JS objects, keyed by id. -/
abbrev Heap := List (ObjId × Json)

def heapGet : Heap → ObjId → Option Json
  | [], _ => none
  | (i1, v) :: rest, i => if i1 = i then some v else heapGet rest i

def heapSet : Heap → ObjId → Json → Heap
  | [], i, v => [(i, v)]
  | (i1, v1) :: rest, i, v =>
    if i1 = i then (i1, v) :: rest else (i1, v1) :: heapSet rest i v

theorem heapGet_heapSet_self (hp : Heap) (i : ObjId) (v : Json) :
    heapGet (heapSet hp i v) i = some v := by
  induction hp with
  | nil => simp [heapSet, heapGet]
  | cons g rest ih =>
    obtain ⟨i1, v1⟩ := g
    by_cases h : i1 = i
    · simp [heapSet, heapGet, h]
    · simp [heapSet, heapGet, h, ih]

/-- `encode` through the caller's headers reference: the `x-tl-json`
mutation of lines 138-140 is applied to the heap cell the reference points
at (it happens before the size check, so it persists even when `encode`
then throws); the result value is computed by `encode`. -/
def encodeRef (hp : Heap) (err : Option JsError) (buffer : Option InBuf)
    (r : Option ObjId) : Heap × Except EncErr EncOut :=
  let hp1 :=
    match err, buffer, r with
    | none, some (.jsonVal _), some i =>
      match heapGet hp i with
      | some h => if jTruthy (some h) then heapSet hp i (jSet h xtlJsonK (.bool true)) else hp
      | none => hp
    | _, _, _ => hp
  (hp1, (encode err buffer (r.bind (heapGet hp))).map (fun p => p.1))

/-- `setEx` through the caller's headers reference: on success the heap
cell at the same id holds the final headers value and the same id is
returned (`return headers`, line 107) — the reference the miss path then
hands to the caller's callback. (The partially-mutated state at an
`encode` throw is not tracked.) -/
def setExRef (hp : Heap) (err : Option JsError) (buffer : Option InBuf) (i : ObjId)
    (ttl stale now : Int) : Except EncErr (Heap × ObjId × Option (Int × List Char)) :=
  match setEx err buffer ((heapGet hp i).getD (.obj [])) ttl stale now with
  | .error e => .error e
  | .ok res => .ok (heapSet hp i res.headersOut, i, res.setCall)

theorem jGet_jSet_self1 (h : Json) (gs : List (List Char × Json)) (hobj : h = .obj gs)
    (k : List Char) (v : Json) : jGet (jSet h k v) k = some v := by
  subst hobj
  exact jGet_jSet_self gs k v

theorem jGet_jSet_other1 (h : Json) (gs : List (List Char × Json)) (hobj : h = .obj gs)
    (k1 k2 : List Char) (v : Json) (hk : k1 ≠ k2) : jGet (jSet h k1 v) k2 = jGet h k2 := by
  subst hobj
  exact jGet_jSet_other gs k1 k2 v hk

theorem jGet_jDel_self1 (h : Json) (gs : List (List Char × Json)) (hobj : h = .obj gs)
    (k : List Char) : jGet (jDel h k) k = none := by
  subst hobj
  exact jGet_jDel_self gs k

theorem jGet_jDel_other1 (h : Json) (gs : List (List Char × Json)) (hobj : h = .obj gs)
    (k1 k2 : List Char) (hk : k1 ≠ k2) : jGet (jDel h k1) k2 = jGet h k2 := by
  subst hobj
  exact jGet_jDel_other gs k1 k2 hk

/-- Reads of keys other than `x-tl-json` pass through `setExFinish`
unchanged (only `encode`'s flag mutation can touch the headers there). -/
theorem setExFinish_get_other (err : Option JsError) (buffer : Option InBuf)
    (h2 : Json) (gs : List (List Char × Json)) (hobj : h2 = .obj gs)
    (pad now : Int) (k : List Char) (hk : k ≠ xtlJsonK) :
    ∀ res, setExFinish err buffer h2 pad now = .ok res →
      jGet res.headersOut k = jGet h2 k := by
  subst hobj
  intro res hok
  unfold setExFinish at hok
  cases hG : jGet (Json.obj gs) xtlExpiresK with
  | none =>
    rw [hG] at hok
    simp only [Except.ok.injEq] at hok
    subst hok
    rfl
  | some v =>
    rw [hG] at hok
    simp only [] at hok
    cases ht : parseDateJson v with
    | none =>
      rw [ht] at hok
      simp only [Except.ok.injEq] at hok
      subst hok
      rfl
    | some t =>
      rw [ht] at hok
      simp only [] at hok
      by_cases hS : ceilDiv (t - now) 1000 > 0
      · rw [if_pos hS] at hok
        cases henc : encode err buffer (some (.obj gs)) with
        | error e =>
          rw [henc] at hok
          simp at hok
        | ok p =>
          obtain ⟨out, hOut⟩ := p
          rw [henc] at hok
          simp only [Except.ok.injEq] at hok
          subst hok
          exact encode_headersOut_get err buffer gs k hk out hOut henc
      · rw [if_neg hS] at hok
        simp only [Except.ok.injEq] at hok
        subst hok
        rfl

/-- The write path's mutations, read off the final headers object: the
caller's `Expires` is gone, `x-tl-expires` is present, and (when no truthy
explicit expiration was supplied) `expires` is gone too. -/
theorem setEx_headersOut_props (err : Option JsError) (buffer : Option InBuf)
    (fs : List (List Char × Json)) (ttl stale now : Int) (res : SetExResult)
    (hok : setEx err buffer (.obj fs) ttl stale now = .ok res) :
    jGet res.headersOut upperExpiresK = none ∧
      (∃ v, jGet res.headersOut xtlExpiresK = some v) ∧
      (jTruthy (jsOr (jGet (.obj fs) upperExpiresK) (jGet (.obj fs) lowerExpiresK)) = false →
        jGet res.headersOut lowerExpiresK = none) := by
  unfold setEx at hok
  cases hjs : jsOr (jGet (.obj fs) upperExpiresK) (jGet (.obj fs) lowerExpiresK) with
  | some ev =>
    rw [hjs] at hok
    simp only [] at hok
    by_cases htr : jTruthy (some ev) = true
    · rw [if_pos htr] at hok
      have hup := setExFinish_get_other err buffer
        (jSet (jSet (jDel (jDel (Json.obj fs) upperExpiresK) lowerExpiresK) lowerExpiresK ev)
          xtlExpiresK ev) _ rfl 0 now upperExpiresK (by decide) res hok
      have hxl := setExFinish_get_other err buffer
        (jSet (jSet (jDel (jDel (Json.obj fs) upperExpiresK) lowerExpiresK) lowerExpiresK ev)
          xtlExpiresK ev) _ rfl 0 now xtlExpiresK (by decide) res hok
      refine ⟨?_, ?_, ?_⟩
      · rw [hup,
          jGet_jSet_other1
            (jSet (jDel (jDel (Json.obj fs) upperExpiresK) lowerExpiresK) lowerExpiresK ev)
            _ rfl xtlExpiresK upperExpiresK ev (by decide),
          jGet_jSet_other1 (jDel (jDel (Json.obj fs) upperExpiresK) lowerExpiresK)
            _ rfl lowerExpiresK upperExpiresK ev (by decide),
          jGet_jDel_other1 (jDel (Json.obj fs) upperExpiresK)
            _ rfl lowerExpiresK upperExpiresK (by decide)]
        exact jGet_jDel_self1 (Json.obj fs) fs rfl upperExpiresK
      · refine ⟨ev, ?_⟩
        rw [hxl]
        exact jGet_jSet_self1
          (jSet (jDel (jDel (Json.obj fs) upperExpiresK) lowerExpiresK) lowerExpiresK ev)
          _ rfl xtlExpiresK ev
      · intro hfalse
        rw [htr] at hfalse
        cases hfalse
    · rw [if_neg htr] at hok
      have hup := setExFinish_get_other err buffer
        (jSet (jDel (jDel (Json.obj fs) upperExpiresK) lowerExpiresK) xtlExpiresK
          (Json.str (toUTCString (now + ttl * 1000)))) _ rfl stale now upperExpiresK
        (by decide) res hok
      have hxl := setExFinish_get_other err buffer
        (jSet (jDel (jDel (Json.obj fs) upperExpiresK) lowerExpiresK) xtlExpiresK
          (Json.str (toUTCString (now + ttl * 1000)))) _ rfl stale now xtlExpiresK
        (by decide) res hok
      have hlo := setExFinish_get_other err buffer
        (jSet (jDel (jDel (Json.obj fs) upperExpiresK) lowerExpiresK) xtlExpiresK
          (Json.str (toUTCString (now + ttl * 1000)))) _ rfl stale now lowerExpiresK
        (by decide) res hok
      refine ⟨?_, ?_, ?_⟩
      · rw [hup,
          jGet_jSet_other1 (jDel (jDel (Json.obj fs) upperExpiresK) lowerExpiresK)
            _ rfl xtlExpiresK upperExpiresK _ (by decide),
          jGet_jDel_other1 (jDel (Json.obj fs) upperExpiresK)
            _ rfl lowerExpiresK upperExpiresK (by decide)]
        exact jGet_jDel_self1 (Json.obj fs) fs rfl upperExpiresK
      · refine ⟨.str (toUTCString (now + ttl * 1000)), ?_⟩
        rw [hxl]
        exact jGet_jSet_self1 (jDel (jDel (Json.obj fs) upperExpiresK) lowerExpiresK)
          _ rfl xtlExpiresK _
      · intro _
        rw [hlo,
          jGet_jSet_other1 (jDel (jDel (Json.obj fs) upperExpiresK) lowerExpiresK)
            _ rfl xtlExpiresK lowerExpiresK _ (by decide)]
        exact jGet_jDel_self1 (jDel (Json.obj fs) upperExpiresK) _ rfl lowerExpiresK
  | none =>
    rw [hjs] at hok
    simp only [] at hok
    have hup := setExFinish_get_other err buffer
      (jSet (jDel (jDel (Json.obj fs) upperExpiresK) lowerExpiresK) xtlExpiresK
        (Json.str (toUTCString (now + ttl * 1000)))) _ rfl stale now upperExpiresK
      (by decide) res hok
    have hxl := setExFinish_get_other err buffer
      (jSet (jDel (jDel (Json.obj fs) upperExpiresK) lowerExpiresK) xtlExpiresK
        (Json.str (toUTCString (now + ttl * 1000)))) _ rfl stale now xtlExpiresK
      (by decide) res hok
    have hlo := setExFinish_get_other err buffer
      (jSet (jDel (jDel (Json.obj fs) upperExpiresK) lowerExpiresK) xtlExpiresK
        (Json.str (toUTCString (now + ttl * 1000)))) _ rfl stale now lowerExpiresK
      (by decide) res hok
    refine ⟨?_, ?_, ?_⟩
    · rw [hup,
        jGet_jSet_other1 (jDel (jDel (Json.obj fs) upperExpiresK) lowerExpiresK)
          _ rfl xtlExpiresK upperExpiresK _ (by decide),
        jGet_jDel_other1 (jDel (Json.obj fs) upperExpiresK)
          _ rfl lowerExpiresK upperExpiresK (by decide)]
      exact jGet_jDel_self1 (Json.obj fs) fs rfl upperExpiresK
    · refine ⟨.str (toUTCString (now + ttl * 1000)), ?_⟩
      rw [hxl]
      exact jGet_jSet_self1 (jDel (jDel (Json.obj fs) upperExpiresK) lowerExpiresK)
        _ rfl xtlExpiresK _
    · intro _
      rw [hlo,
        jGet_jSet_other1 (jDel (jDel (Json.obj fs) upperExpiresK) lowerExpiresK)
          _ rfl xtlExpiresK lowerExpiresK _ (by decide)]
      exact jGet_jDel_self1 (jDel (Json.obj fs) upperExpiresK) _ rfl lowerExpiresK

/-- C10: the mutations happen on the caller's object, not a copy. Encoding
a structured payload updates the heap cell the caller's reference points at
(the `x-tl-json` flag is set on the very object passed in), and the write
path stores its result — `Expires` deleted, `x-tl-expires` inserted, and
`expires` deleted too when no truthy explicit expiration was supplied —
at the very same id, returning that id (the reference the miss path then
delivers to the caller's callback). -/
theorem c10_in_place_mutation (hp : Heap) (i : ObjId) (fs : List (List Char × Json)) :
    (∀ j, heapGet hp i = some (.obj fs) →
      (encodeRef hp none (some (.jsonVal j)) (some i)).1 =
        heapSet hp i (jSet (.obj fs) xtlJsonK (.bool true)) ∧
      heapGet (encodeRef hp none (some (.jsonVal j)) (some i)).1 i =
        some (jSet (.obj fs) xtlJsonK (.bool true)) ∧
      jGet (jSet (.obj fs) xtlJsonK (.bool true)) xtlJsonK = some (.bool true)) ∧
    (∀ err buffer ttl stale now res,
      heapGet hp i = some (.obj fs) →
      setEx err buffer (.obj fs) ttl stale now = .ok res →
      setExRef hp err buffer i ttl stale now =
        .ok (heapSet hp i res.headersOut, i, res.setCall) ∧
      heapGet (heapSet hp i res.headersOut) i = some res.headersOut ∧
      jGet res.headersOut upperExpiresK = none ∧
      (∃ v, jGet res.headersOut xtlExpiresK = some v) ∧
      (jTruthy (jsOr (jGet (.obj fs) upperExpiresK) (jGet (.obj fs) lowerExpiresK)) = false →
        jGet res.headersOut lowerExpiresK = none)) := by
  constructor
  · intro j hhp
    refine ⟨?_, ?_, jGet_jSet_self fs xtlJsonK (.bool true)⟩
    · show (match heapGet hp i with
        | some h => if jTruthy (some h) = true then
            heapSet hp i (jSet h xtlJsonK (.bool true)) else hp
        | none => hp) = _
      rw [hhp]
      simp only [jTruthy, if_true]
    · show heapGet (match heapGet hp i with
        | some h => if jTruthy (some h) = true then
            heapSet hp i (jSet h xtlJsonK (.bool true)) else hp
        | none => hp) i = _
      rw [hhp]
      simp only [jTruthy, if_true]
      exact heapGet_heapSet_self hp i _
  · intro err buffer ttl stale now res hhp hok
    obtain ⟨hup, hxl, hlo⟩ := setEx_headersOut_props err buffer fs ttl stale now res hok
    refine ⟨?_, heapGet_heapSet_self hp i _, hup, hxl, hlo⟩
    unfold setExRef
    rw [hhp]
    simp only [Option.getD_some]
    rw [hok]

/-- Witness for C10 at a one-cell heap holding an empty headers object. -/
theorem c10_in_place_mutation_witness :
    ((encodeRef [(0, Json.obj [])] none (some (.jsonVal (.num 1))) (some 0)).1 =
        heapSet [(0, Json.obj [])] 0 (jSet (.obj []) xtlJsonK (.bool true)) ∧
      heapGet (encodeRef [(0, Json.obj [])] none (some (.jsonVal (.num 1))) (some 0)).1 0 =
        some (jSet (.obj []) xtlJsonK (.bool true)) ∧
      jGet (jSet (.obj []) xtlJsonK (.bool true)) xtlJsonK = some (.bool true)) ∧
    (setExRef [(0, Json.obj [])] none (some (.buf ['h', 'i'])) 0 300 300 0 =
        .ok (heapSet [(0, Json.obj [])] 0
          ({ headersOut := .obj [(xtlExpiresK, .str (toUTCString 300000))],
             setCall := some (600, encBytesOf (encode none (some (.buf ['h', 'i']))
               (some (.obj [(xtlExpiresK, .str (toUTCString 300000))])))) } :
            SetExResult).headersOut, 0,
          ({ headersOut := .obj [(xtlExpiresK, .str (toUTCString 300000))],
             setCall := some (600, encBytesOf (encode none (some (.buf ['h', 'i']))
               (some (.obj [(xtlExpiresK, .str (toUTCString 300000))])))) } :
            SetExResult).setCall) ∧
      heapGet (heapSet [(0, Json.obj [])] 0 (.obj [(xtlExpiresK, .str (toUTCString 300000))]))
        0 = some (.obj [(xtlExpiresK, .str (toUTCString 300000))]) ∧
      jGet (Json.obj [(xtlExpiresK, .str (toUTCString 300000))]) upperExpiresK = none ∧
      (∃ v, jGet (Json.obj [(xtlExpiresK, .str (toUTCString 300000))]) xtlExpiresK = some v) ∧
      (jTruthy (jsOr (jGet (.obj []) upperExpiresK) (jGet (.obj []) lowerExpiresK)) = false →
        jGet (Json.obj [(xtlExpiresK, .str (toUTCString 300000))]) lowerExpiresK = none)) :=
  ⟨(c10_in_place_mutation [(0, Json.obj [])] 0 []).1 (.num 1) (by decide),
   (c10_in_place_mutation [(0, Json.obj [])] 0 []).2 none (some (.buf ['h', 'i'])) 300 300 0
     { headersOut := .obj [(xtlExpiresK, .str (toUTCString 300000))],
       setCall := some (600, encBytesOf (encode none (some (.buf ['h', 'i']))
         (some (.obj [(xtlExpiresK, .str (toUTCString 300000))])))) }
     (by decide) (by decide)⟩
